import Mathlib

/-!
# OLED barcode generator: `draw_bar_code`

A shallow embedding of `src/main/main.c` (the tables `bar_code_digits` and
`ean_13_left_parity`, `swap7bits` and `draw_bar_code`) and theorems about it.

Modelling conventions.

* A C string is the list of its bytes before the terminating NUL, each byte a
  `Nat`.  The digit test `str[i] < '0' || str[i] > '9'` gives the same answer
  whether `char` is signed or unsigned (a byte above 127 is either negative,
  hence below `'0'`, or above `'9'`), so the unsigned reading is used.
* `uint8_t` values are `Nat` with explicit reduction modulo 256 where the C
  code truncates (`~b`, `str[i] - '0'`).
* `int pos` is an `Int`.
* The display library (u8g2) is external.  A call of `draw_bar_code` is
  modelled by the ordered list of drawing primitives it issues (`DrawOp`),
  which any surface can then execute (`run_on`).  `u8g2_GetMaxCharHeight` only
  reads a field of the surface and its result (`glyph_height`) is never used,
  so it does not appear in the list.
-/

namespace OledBarcode

/-- Display dimensions (`#define DISPLAY_WIDTH 128`). -/
def DISPLAY_WIDTH : Int := 128

/-- Display dimensions (`#define DISPLAY_HEIGHT 32`). -/
def DISPLAY_HEIGHT : Int := 32

/-- The enum `barcode_type_e`. -/
inductive barcode_type_e where
  | EAN_8
  | EAN_13
  | UPC_A
  deriving DecidableEq, Repr

/-- The three values of `esp_err_t` that `draw_bar_code` can return. -/
inductive esp_err_t where
  | ESP_OK
  | ESP_ERR_INVALID_ARG
  | ESP_ERR_INVALID_SIZE
  deriving DecidableEq, Repr

/-- The table `bar_code_digits` (the L-code of each digit). -/
def bar_code_digits : List Nat :=
  [0b0001101, 0b0011001, 0b0010011, 0b0111101,
   0b0100011, 0b0110001, 0b0101111, 0b0111011,
   0b0110111, 0b0001011]

/-- The table `ean_13_left_parity`. -/
def ean_13_left_parity : List Nat :=
  [0b000000, 0b001011, 0b001101, 0b001110,
   0b010011, 0b011001, 0b011100, 0b010101,
   0b010110, 0b011010]

/-- The drawing primitives of the surface that `draw_bar_code` calls, with the
arguments as the code passes them. -/
inductive DrawOp where
  | SetDrawColor (color : Nat)
  | DrawBox (x y w h : Int)
  | SetFont
  | DrawGlyph (x y : Int) (encoding : Nat)
  | DrawVLine (x y len : Int)
  | SendBuffer
  deriving DecidableEq, Repr

/-- The C expression `~b` stored back into a `uint8_t`. -/
def not8 (b : Nat) : Nat := 255 - b % 256

/-- The function `swap7bits`: reverses the 7 least significant bits of a byte. -/
def swap7bits (a : Nat) : Nat :=
  let v := 0
  let v := if a &&& 0x40 ≠ 0 then v ||| 0x01 else v
  let v := if a &&& 0x20 ≠ 0 then v ||| 0x02 else v
  let v := if a &&& 0x10 ≠ 0 then v ||| 0x04 else v
  let v := if a &&& 0x08 ≠ 0 then v ||| 0x08 else v
  let v := if a &&& 0x04 ≠ 0 then v ||| 0x10 else v
  let v := if a &&& 0x02 ≠ 0 then v ||| 0x20 else v
  let v := if a &&& 0x01 ≠ 0 then v ||| 0x40 else v
  v

/-- Lines 109-117 of `draw_bar_code`: the size check, then the digit check.
`none` means that both checks passed. -/
def validate (str : List Nat) : Option esp_err_t :=
  let N := str.length
  if N ≠ 8 ∧ N ≠ 12 ∧ N ≠ 13 then
    some esp_err_t.ESP_ERR_INVALID_SIZE
  else if str.any (fun c => decide (c < 48) || decide (c > 57)) then
    some esp_err_t.ESP_ERR_INVALID_ARG
  else
    none

/-- Lines 119-128 of `draw_bar_code`: the symbol type and the midpoint `mid`. -/
def classify (N : Nat) : barcode_type_e × Nat :=
  if N = 8 then (barcode_type_e.EAN_8, 4)
  else if N = 12 then (barcode_type_e.UPC_A, 6)
  else (barcode_type_e.EAN_13, 7)

/-- The C expression `str[i] - '0'` stored into a `uint8_t` (lines 148 and 151
of `draw_bar_code`); it is only evaluated after validation, on a digit. -/
def digit_at (str : List Nat) (i : Nat) : Nat := (str.getD i 0 + 256 - 48) % 256

/-- Line 149 of `draw_bar_code`: the index of the first digit drawn as bars. -/
def start_idx (type : barcode_type_e) : Nat :=
  if type = barcode_type_e.EAN_13 then 1 else 0

/-- Lines 151-161 of `draw_bar_code`: the byte `b` whose bits 6..0 are drawn
for the digit at index `i`. -/
def digit_pattern (type : barcode_type_e) (mid first_digit i digit : Nat) : Nat :=
  let b := bar_code_digits.getD digit 0
  if i ≥ mid then
    not8 b
  else if type = barcode_type_e.EAN_13 then
    if ean_13_left_parity.getD first_digit 0 &&& (1 <<< (5 - ((i : Int) - 1)).toNat) ≠ 0 then
      swap7bits (not8 b)
    else b
  else b

/-- Lines 182-187 of `draw_bar_code`: the loop over `k`, run over the list of
its index values; returns the strokes issued and the cursor after the loop. -/
def draw_module (b : Nat) (length : Int) : List Nat → Int → List DrawOp × Int
  | [], pos => ([], pos)
  | k :: ks, pos =>
    let here := if b &&& (0x01 <<< (6 - k)) ≠ 0 then [DrawOp.DrawVLine pos 0 length] else []
    let rest := draw_module b length ks (pos + 1)
    (here ++ rest.1, rest.2)

/-- Lines 151-187 of `draw_bar_code`: one turn of the loop over the digits,
entered with cursor `pos`; returns the primitives issued and the cursor after
the turn. -/
def digit_body (str : List Nat) (type : barcode_type_e) (mid N first_digit i : Nat)
    (pos : Int) : List DrawOp × Int :=
  let digit := digit_at str i
  let b := digit_pattern type mid first_digit i digit
  -- centre guard (space-bar-space-bar-space)
  let centre :=
    if i = mid then
      [DrawOp.DrawVLine (pos + 1) 0 DISPLAY_HEIGHT, DrawOp.DrawVLine (pos + 3) 0 DISPLAY_HEIGHT]
    else []
  let pos := if i = mid then pos + 5 else pos
  -- text of the digit (except first and last)
  let glyph :=
    if type ≠ barcode_type_e.UPC_A ∨ (i ≠ 0 ∧ i ≠ N - 1) then
      [DrawOp.DrawGlyph (pos + 1) (DISPLAY_HEIGHT - 1) (str.getD i 0)]
    else []
  let length :=
    if type = barcode_type_e.UPC_A ∧ (i = 0 ∨ i = N - 1) then DISPLAY_HEIGHT
    else DISPLAY_HEIGHT - 8
  let bars := draw_module b length (List.range 7) pos
  (centre ++ glyph ++ bars.1, bars.2)

/-- Lines 150-188 of `draw_bar_code`: the loop over the digits, run over the
list of its index values. -/
def digits_loop (str : List Nat) (type : barcode_type_e) (mid N first_digit : Nat) :
    List Nat → Int → List DrawOp × Int
  | [], pos => ([], pos)
  | i :: is, pos =>
    let turn := digit_body str type mid N first_digit i pos
    let rest := digits_loop str type mid N first_digit is turn.2
    (turn.1 ++ rest.1, rest.2)

/-- Lines 130-139 of `draw_bar_code`: the start column. -/
def start_column (N : Nat) : Int :=
  Int.tdiv (DISPLAY_WIDTH - (((N : Int) * 7) + 11)) 2

/-- Lines 133-139 of `draw_bar_code`: filling the display and the glyph left of
the start guard. -/
def draw_header (str : List Nat) (type : barcode_type_e) (pos : Int) : List DrawOp :=
  [DrawOp.SetDrawColor 1,
   DrawOp.DrawBox 0 0 DISPLAY_WIDTH DISPLAY_HEIGHT,
   DrawOp.SetDrawColor 0,
   DrawOp.SetFont] ++
  (if type ≠ barcode_type_e.EAN_8 then
    [DrawOp.DrawGlyph (pos - 6) (DISPLAY_HEIGHT - 1) (str.getD 0 0)]
   else [])

/-- Lines 142-144 and 190-192 of `draw_bar_code`: a guard bar-space-bar drawn
at cursor `pos`; the cursor ends at `pos + 3`. -/
def draw_guard (pos : Int) : List DrawOp :=
  [DrawOp.DrawVLine pos 0 DISPLAY_HEIGHT, DrawOp.DrawVLine (pos + 2) 0 DISPLAY_HEIGHT]

/-- Lines 130-196 of `draw_bar_code`: everything after validation and
classification. -/
def render (str : List Nat) (type : barcode_type_e) (mid : Nat) : List DrawOp :=
  let N := str.length
  let pos := start_column N
  let header := draw_header str type pos
  let guard1 := draw_guard pos
  let pos := pos + 3
  let first_digit := digit_at str 0
  let digits := digits_loop str type mid N first_digit
    (List.range' (start_idx type) (N - start_idx type)) pos
  let pos := digits.2
  let guard2 := draw_guard pos
  let pos := pos + 3
  let trailer :=
    if type = barcode_type_e.UPC_A then
      [DrawOp.DrawGlyph (pos + 1) (DISPLAY_HEIGHT - 1) (str.getD (N - 1) 0)]
    else []
  header ++ guard1 ++ digits.1 ++ guard2 ++ trailer ++ [DrawOp.SendBuffer]

/-- The function `draw_bar_code`: the value returned and the primitives issued
on the surface, in order. -/
def draw_bar_code (str : List Nat) : esp_err_t × List DrawOp :=
  match validate str with
  | some err => (err, [])
  | none =>
    let tm := classify str.length
    (esp_err_t.ESP_OK, render str tm.1 tm.2)

/-- The surface after a call of `draw_bar_code`, for a surface of any type
`σ` that executes one primitive at a time with `exec`. -/
def run_on {σ : Type} (exec : σ → DrawOp → σ) (surface : σ) (str : List Nat) : σ :=
  (draw_bar_code str).2.foldl exec surface

/-- The bytes of an ASCII string. -/
def bytes (s : String) : List Nat := s.toList.map Char.toNat

/-- The columns of the vertical strokes in a list of primitives, in order. -/
def vline_cols : List DrawOp → List Int
  | [] => []
  | DrawOp.DrawVLine x _ _ :: ops => x :: vline_cols ops
  | _ :: ops => vline_cols ops

/-- Follows the spec's words for the 7-bit reversal ("swaps bit positions 0↔6,
1↔5, 2↔4, bit 3 fixed"): bit `j` of the argument becomes bit `6 - j` of the
result, for `j` in 0..6. -/
def bit_reverse_7 (a : Nat) : Nat :=
  (List.range 7).foldl (fun v j => if a.testBit j then v + 2 ^ (6 - j) else v) 0

/-- Follows the spec's words for the complement "masked to 7 bits". -/
def not7 (a : Nat) : Nat := (a ^^^ 0x7F) % 128

/-- Follows the spec's words: the L-code is the table value, unmodified. -/
def L_code (d : Nat) : Nat := bar_code_digits.getD d 0

/-- Follows the spec's words: the R-code is the complement of the L-code,
masked to 7 bits. -/
def R_code (d : Nat) : Nat := not7 (L_code d)

/-- Follows the spec's words: the G-code is the complement of the 7-bit
reversal of the L-code. -/
def G_code (d : Nat) : Nat := not7 (bit_reverse_7 (L_code d))

/-- The cursor on entry to the turn for index `i` of a digit loop that starts
at index `a` with cursor `pos`: 7 columns for each earlier digit, and 5 more
once the turn of index `mid`, which draws the centre guard, is over. -/
def entry_col (mid a : Nat) (pos : Int) (i : Nat) : Int :=
  pos + 7 * ((i : Int) - a) + (if a ≤ mid ∧ mid < i then 5 else 0)

/-- The number of columns from the first vertical stroke of a list of
primitives to its last one, both included (0 when there is no stroke). -/
def stroke_extent (ops : List DrawOp) : Int :=
  match (vline_cols ops).head?, (vline_cols ops).getLast? with
  | some first, some last => last - first + 1
  | _, _ => 0

/-- The column at which the 7 modules of the digit of index `i` start, in a
rendering of `N` characters: 3 columns for the start guard, 7 for each earlier
digit of the loop, and 5 for the centre guard from index `mid` on. -/
def block_col (type : barcode_type_e) (mid N i : Nat) : Int :=
  start_column N + 3 + 7 * ((i : Int) - start_idx type) + (if mid ≤ i then 5 else 0)

/-- The height of the strokes of the digit of index `i` (lines 178-181 of
`draw_bar_code`). -/
def stroke_length (type : barcode_type_e) (N i : Nat) : Int :=
  if type = barcode_type_e.UPC_A ∧ (i = 0 ∨ i = N - 1) then DISPLAY_HEIGHT
  else DISPLAY_HEIGHT - 8

/-- Modelled from the spec: the state of the drawing surface of section 6 (the
u8g2 library, which is not part of the sources): the pixel buffer of the
128x32 display, one colour index per pixel, the current draw colour, and the
selected font (0 when none was selected). -/
structure Surface where
  pixel : Fin 128 → Fin 32 → Nat
  color : Nat
  font : Nat

/-- Modelled from the spec: the effect of one primitive of the drawing surface
of section 6 on its state.  `set_draw_color` selects the colour, `fill_rect`
and `draw_vline` write the current colour to the pixels of the display they
cover, `send_buffer` transmits the buffer and leaves it as it is.  The font
data are not part of the sources: `glyph` is an arbitrary glyph renderer, a
function of the selected font, the draw colour, the origin, the character and
the buffer. -/
def Surface.exec
    (glyph : Nat → Nat → Int → Int → Nat → (Fin 128 → Fin 32 → Nat) → (Fin 128 → Fin 32 → Nat))
    (s : Surface) : DrawOp → Surface
  | DrawOp.SetDrawColor c => { s with color := c }
  | DrawOp.DrawBox x y w h =>
    { s with pixel := fun i j =>
        if x ≤ ((i : Nat) : Int) ∧ ((i : Nat) : Int) < x + w ∧
            y ≤ ((j : Nat) : Int) ∧ ((j : Nat) : Int) < y + h
        then s.color else s.pixel i j }
  | DrawOp.SetFont => { s with font := 1 }
  | DrawOp.DrawGlyph x y ch => { s with pixel := glyph s.font s.color x y ch s.pixel }
  | DrawOp.DrawVLine x y len =>
    { s with pixel := fun i j =>
        if ((i : Nat) : Int) = x ∧ y ≤ ((j : Nat) : Int) ∧ ((j : Nat) : Int) < y + len
        then s.color else s.pixel i j }
  | DrawOp.SendBuffer => s


/-- Follows the spec's words (section 4.4, step 5a, with the variant of
section 4.3): the pattern of the digit `d` at index `i` is the R-code when
`i >= midpoint`; otherwise, for EAN-13 it is the G-code when bit
`5 - (i - 1)` of the selector of the first digit is 1 and the L-code when it
is 0, and for the other types it is the L-code. -/
def spec_pattern (type : barcode_type_e) (mid first_digit i d : Nat) : Nat :=
  if mid ≤ i then R_code d
  else if type = barcode_type_e.EAN_13 then
    if (ean_13_left_parity.getD first_digit 0).testBit (5 - (i - 1)) = true then G_code d
    else L_code d
  else L_code d


/-- Follows the spec's words for the place of the centre guard: it starts at
column `start + 3 + 7 * (number of left-half digits)`, the number being 4 for
EAN-8 (8 characters) and 6 for UPC-A and EAN-13. -/
def centre_guard_col (N : Nat) : Int :=
  start_column N + 3 + 7 * (if N = 8 then 4 else 6)



/-- The number of bar modules of a pattern: the number of 1 bits among its
bits 6..0, which is the number of strokes that the stroke loop draws for it. -/
def bar_count (b : Nat) : Nat :=
  ((List.range 7).filter (fun k => b.testBit (6 - k))).length

/-- The number of vertical strokes of a list of primitives in the 7 columns
that start at column `c`. -/
def strokes_in_block (ops : List DrawOp) (c : Int) : Nat :=
  ((vline_cols ops).filter (fun x => decide (c ≤ x ∧ x < c + 7))).length


/-- The seven-bit pattern of the digit `d` in the variant `v`: 0 for L, the
table entry; 1 for R, the table entry XOR 0x7F; 2 for G, `swap7bits` of R. -/
def variant_pattern (d v : Nat) : Nat :=
  if v = 0 then bar_code_digits.getD d 0
  else if v = 1 then bar_code_digits.getD d 0 ^^^ 0x7F
  else swap7bits (bar_code_digits.getD d 0 ^^^ 0x7F)



/-! ## Validation -/

theorem validate_size (str : List Nat)
    (h8 : str.length ≠ 8) (h12 : str.length ≠ 12) (h13 : str.length ≠ 13) :
    validate str = some esp_err_t.ESP_ERR_INVALID_SIZE := by
  simp [validate, h8, h12, h13]

theorem validate_digit (str : List Nat)
    (hlen : str.length = 8 ∨ str.length = 12 ∨ str.length = 13)
    (hbad : ∃ c ∈ str, c < 48 ∨ 57 < c) :
    validate str = some esp_err_t.ESP_ERR_INVALID_ARG := by
  have hsize : ¬ (str.length ≠ 8 ∧ str.length ≠ 12 ∧ str.length ≠ 13) := by omega
  have hany : str.any (fun c => decide (c < 48) || decide (c > 57)) = true := by
    obtain ⟨c, hc, hcb⟩ := hbad
    rw [List.any_eq_true]
    exact ⟨c, hc, by simpa using hcb⟩
  simp only [validate, hsize, hany, if_true, if_false]

theorem validate_none (str : List Nat)
    (hlen : str.length = 8 ∨ str.length = 12 ∨ str.length = 13)
    (hdig : ∀ c ∈ str, 48 ≤ c ∧ c ≤ 57) :
    validate str = none := by
  have hsize : ¬ (str.length ≠ 8 ∧ str.length ≠ 12 ∧ str.length ≠ 13) := by omega
  have hany : str.any (fun c => decide (c < 48) || decide (c > 57)) = false := by
    rw [List.any_eq_false]
    intro c hc
    have := hdig c hc
    simp only [Bool.or_eq_true, decide_eq_true_eq, gt_iff_lt]
    omega
  simp [validate, hsize, hany]

theorem draw_bar_code_valid (str : List Nat)
    (hlen : str.length = 8 ∨ str.length = 12 ∨ str.length = 13)
    (hdig : ∀ c ∈ str, 48 ≤ c ∧ c ≤ 57) :
    draw_bar_code str =
      (esp_err_t.ESP_OK, render str (classify str.length).1 (classify str.length).2) := by
  simp [draw_bar_code, validate_none str hlen hdig]

theorem draw_bar_code_error (str : List Nat)
    (herr : (draw_bar_code str).1 ≠ esp_err_t.ESP_OK) : (draw_bar_code str).2 = [] := by
  unfold draw_bar_code at herr ⊢
  cases h : validate str with
  | none => simp [h] at herr
  | some e => simp

/-- C1: an input whose length is not 8, 12 or 13 makes `draw_bar_code` return
`ESP_ERR_INVALID_SIZE`, whatever its characters are (the size check comes
before the digit check). -/
theorem invalid_size_for_wrong_length (str : List Nat)
    (h8 : str.length ≠ 8) (h12 : str.length ≠ 12) (h13 : str.length ≠ 13) :
    (draw_bar_code str).1 = esp_err_t.ESP_ERR_INVALID_SIZE := by
  simp [draw_bar_code, validate_size str h8 h12 h13]

/-- Witness of C1 at the input `"12AB"`: wrong length and non-digits give
`ESP_ERR_INVALID_SIZE`, not `ESP_ERR_INVALID_ARG`. -/
theorem invalid_size_for_wrong_length_witness :
    (bytes "12AB").length ≠ 8 ∧ (bytes "12AB").length ≠ 12 ∧ (bytes "12AB").length ≠ 13 ∧
    (draw_bar_code (bytes "12AB")).1 = esp_err_t.ESP_ERR_INVALID_SIZE ∧
    (draw_bar_code (bytes "12AB")).1 ≠ esp_err_t.ESP_ERR_INVALID_ARG :=
  ⟨by decide, by decide, by decide,
   invalid_size_for_wrong_length (bytes "12AB") (by decide) (by decide) (by decide),
   by decide⟩

/-- C2: an input of length 8, 12 or 13 with at least one character outside
`'0'..'9'`, at any index, makes `draw_bar_code` return `ESP_ERR_INVALID_ARG`. -/
theorem invalid_digit_for_non_numeric (str : List Nat)
    (hlen : str.length = 8 ∨ str.length = 12 ∨ str.length = 13)
    (hbad : ∃ c ∈ str, c < 48 ∨ 57 < c) :
    (draw_bar_code str).1 = esp_err_t.ESP_ERR_INVALID_ARG := by
  simp [draw_bar_code, validate_digit str hlen hbad]

/-- Witness of C2 at a 13-character input with one `'X'`. -/
theorem invalid_digit_for_non_numeric_witness :
    ((bytes "012345X789012").length = 8 ∨ (bytes "012345X789012").length = 12 ∨
      (bytes "012345X789012").length = 13) ∧
    (∃ c ∈ bytes "012345X789012", c < 48 ∨ 57 < c) ∧
    (draw_bar_code (bytes "012345X789012")).1 = esp_err_t.ESP_ERR_INVALID_ARG :=
  ⟨by decide, by decide,
   invalid_digit_for_non_numeric (bytes "012345X789012") (by decide) (by decide)⟩

/-- C3: every string of 8, 12 or 13 decimal digits makes `draw_bar_code`
return `ESP_OK`, and the last primitive it issues is the buffer send; the
digits are not constrained in any other way (no check-digit condition), and
an error is returned only for a wrong length or a non-digit character. -/
theorem valid_digits_render_ok (str : List Nat)
    (hlen : str.length = 8 ∨ str.length = 12 ∨ str.length = 13)
    (hdig : ∀ c ∈ str, 48 ≤ c ∧ c ≤ 57) :
    (draw_bar_code str).1 = esp_err_t.ESP_OK ∧
    (draw_bar_code str).2.getLast? = some DrawOp.SendBuffer ∧
    (∀ s : List Nat, (draw_bar_code s).1 ≠ esp_err_t.ESP_OK →
      (s.length ≠ 8 ∧ s.length ≠ 12 ∧ s.length ≠ 13) ∨ (∃ c ∈ s, c < 48 ∨ 57 < c)) := by
  refine ⟨?_, ?_, ?_⟩
  · rw [draw_bar_code_valid str hlen hdig]
  · rw [draw_bar_code_valid str hlen hdig]
    simp [render]
  · intro s herr
    by_contra hcon
    rw [not_or] at hcon
    apply herr
    rw [draw_bar_code_valid s (by omega) (fun c hc => by
      have := hcon.2
      by_contra hbad
      exact this ⟨c, hc, by omega⟩)]

/-- Witness of C3 at `"01234566"`, whose EAN-8 check digit is wrong (the check
digit of `0123456` is 5). -/
theorem valid_digits_render_ok_witness :
    ((bytes "01234566").length = 8 ∨ (bytes "01234566").length = 12 ∨
      (bytes "01234566").length = 13) ∧
    (∀ c ∈ bytes "01234566", 48 ≤ c ∧ c ≤ 57) ∧
    (draw_bar_code (bytes "01234566")).1 = esp_err_t.ESP_OK ∧
    (draw_bar_code (bytes "01234566")).2.getLast? = some DrawOp.SendBuffer :=
  ⟨by decide, by decide,
   (valid_digits_render_ok (bytes "01234566") (by decide) (by decide)).1,
   (valid_digits_render_ok (bytes "01234566") (by decide) (by decide)).2.1⟩

/-- C4: when `draw_bar_code` returns an error it has issued no primitive at
all, so a surface of any kind is left as it was. -/
theorem error_leaves_surface_untouched {σ : Type} (exec : σ → DrawOp → σ) (surface : σ)
    (str : List Nat) (herr : (draw_bar_code str).1 ≠ esp_err_t.ESP_OK) :
    (draw_bar_code str).2 = [] ∧ run_on exec surface str = surface := by
  have h := draw_bar_code_error str herr
  exact ⟨h, by simp [run_on, h]⟩

/-- Witness of C4 at `"12AB"` (invalid size), on a surface that records every
primitive it receives. -/
theorem error_leaves_surface_untouched_witness :
    (draw_bar_code (bytes "12AB")).1 ≠ esp_err_t.ESP_OK ∧
    (draw_bar_code (bytes "12AB")).2 = [] ∧
    run_on (fun (log : List DrawOp) op => log ++ [op]) [DrawOp.SetFont] (bytes "12AB")
      = [DrawOp.SetFont] :=
  ⟨by decide,
   error_leaves_surface_untouched (fun (log : List DrawOp) op => log ++ [op]) [DrawOp.SetFont]
     (bytes "12AB") (by decide)⟩

/-- C5: for a valid digit string the symbol type and the midpoint are fixed by
the length alone: 8 gives EAN-8 and 4, 12 gives UPC-A and 6, 13 gives EAN-13
and 7, and `draw_bar_code` renders with exactly these. -/
theorem classification_by_length (str : List Nat) (hdig : ∀ c ∈ str, 48 ≤ c ∧ c ≤ 57) :
    (str.length = 8 →
      classify str.length = (barcode_type_e.EAN_8, 4) ∧
      draw_bar_code str = (esp_err_t.ESP_OK, render str barcode_type_e.EAN_8 4)) ∧
    (str.length = 12 →
      classify str.length = (barcode_type_e.UPC_A, 6) ∧
      draw_bar_code str = (esp_err_t.ESP_OK, render str barcode_type_e.UPC_A 6)) ∧
    (str.length = 13 →
      classify str.length = (barcode_type_e.EAN_13, 7) ∧
      draw_bar_code str = (esp_err_t.ESP_OK, render str barcode_type_e.EAN_13 7)) := by
  refine ⟨fun h => ?_, fun h => ?_, fun h => ?_⟩
  · rw [draw_bar_code_valid str (by omega) hdig, h]; exact ⟨rfl, rfl⟩
  · rw [draw_bar_code_valid str (by omega) hdig, h]; exact ⟨rfl, rfl⟩
  · rw [draw_bar_code_valid str (by omega) hdig, h]; exact ⟨rfl, rfl⟩

/-- Witness of C5 at the UPC-A input `"012345678912"`. -/
theorem classification_by_length_witness :
    (∀ c ∈ bytes "012345678912", 48 ≤ c ∧ c ≤ 57) ∧
    classify (bytes "012345678912").length = (barcode_type_e.UPC_A, 6) ∧
    draw_bar_code (bytes "012345678912")
      = (esp_err_t.ESP_OK, render (bytes "012345678912") barcode_type_e.UPC_A 6) :=
  ⟨by decide, (classification_by_length (bytes "012345678912") (by decide)).2.1 (by decide)⟩

/-! ## Bit patterns -/

theorem and_shift_mod128 (b j : Nat) (hj : j < 7) :
    (b % 128) &&& (1 <<< j) = b &&& (1 <<< j) := by
  apply Nat.eq_of_testBit_eq
  intro i
  have h128 : (128 : Nat) = 2 ^ 7 := by norm_num
  rw [Nat.testBit_and, Nat.testBit_and, h128, Nat.testBit_mod_two_pow, Nat.one_shiftLeft,
    Nat.testBit_two_pow]
  by_cases hij : j = i
  · subst hij; simp [hj]
  · simp [hij]

theorem draw_module_mod128 (b : Nat) (length : Int) (ks : List Nat) (pos : Int) :
    draw_module (b % 128) length ks pos = draw_module b length ks pos := by
  induction ks generalizing pos with
  | nil => rfl
  | cons k ks ih =>
    have hk : 6 - k < 7 := by omega
    simp only [draw_module, and_shift_mod128 b (6 - k) hk, ih]

theorem draw_module_snd (b : Nat) (length : Int) (ks : List Nat) (pos : Int) :
    (draw_module b length ks pos).2 = pos + ks.length := by
  induction ks generalizing pos with
  | nil => simp [draw_module]
  | cons k ks ih =>
    simp only [draw_module, ih, List.length_cons]
    push_cast
    ring

set_option maxRecDepth 100000 in
theorem bytes_facts : ∀ a < 256,
    swap7bits a = bit_reverse_7 a ∧
    swap7bits (not8 a) = not7 (bit_reverse_7 a) ∧
    swap7bits (not7 a) = not7 (swap7bits a) ∧
    not8 a % 128 = not7 a := by
  decide

theorem and_shift_ne_zero (b j : Nat) : b &&& (1 <<< j) ≠ 0 ↔ b.testBit j = true := by
  rw [Nat.one_shiftLeft]
  constructor
  · intro h
    by_contra hb
    apply h
    apply Nat.eq_of_testBit_eq
    intro i
    rw [Nat.testBit_and, Nat.testBit_two_pow, Nat.zero_testBit]
    by_cases hij : j = i
    · subst hij; simp [hb]
    · simp [hij]
  · intro hb h
    have : (b &&& 2 ^ j).testBit j = true := by
      rw [Nat.testBit_and, Nat.testBit_two_pow_self, hb]; rfl
    rw [h, Nat.zero_testBit] at this
    exact Bool.noConfusion this

/-! ## The list of primitives -/

theorem vline_cols_append (xs ys : List DrawOp) :
    vline_cols (xs ++ ys) = vline_cols xs ++ vline_cols ys := by
  induction xs with
  | nil => rfl
  | cons op xs ih => cases op <;> simp [vline_cols, ih]

theorem mem_vline_cols (x : Int) (ops : List DrawOp) :
    x ∈ vline_cols ops ↔ ∃ y l, DrawOp.DrawVLine x y l ∈ ops := by
  induction ops with
  | nil => simp [vline_cols]
  | cons op ops ih =>
    cases op <;> simp [vline_cols, ih]
    case DrawVLine x1 y1 l1 =>
      constructor
      · rintro (h | ⟨y, l, h⟩)
        · exact ⟨y1, l1, Or.inl ⟨h, rfl, rfl⟩⟩
        · exact ⟨y, l, Or.inr h⟩
      · rintro ⟨y, l, (⟨h, _, _⟩ | h)⟩
        · exact Or.inl h
        · exact Or.inr ⟨y, l, h⟩

theorem draw_module_range' (b : Nat) (length : Int) (a n : Nat) (pos : Int) :
    (draw_module b length (List.range' a n) pos).1 =
      ((List.range' a n).filter (fun k => b.testBit (6 - k))).map
        (fun (k : Nat) => DrawOp.DrawVLine (pos + ((k : Int) - a)) 0 length) := by
  induction n generalizing a pos with
  | zero => simp [draw_module]
  | succ n ih =>
    rw [List.range'_succ]
    simp only [draw_module, ih]
    have hmap : ∀ l : List Nat,
        l.map (fun (k : Nat) => DrawOp.DrawVLine (pos + 1 + ((k : Int) - ((a + 1 : Nat) : Int))) 0 length)
          = l.map (fun (k : Nat) => DrawOp.DrawVLine (pos + ((k : Int) - a)) 0 length) := by
      intro l
      apply List.map_congr_left
      intro k _
      have : pos + 1 + ((k : Int) - ((a + 1 : Nat) : Int)) = pos + ((k : Int) - a) := by
        push_cast; ring
      rw [this]
    rw [hmap]
    by_cases hb : b.testBit (6 - a) = true
    · have h1 : b &&& (1 <<< (6 - a)) ≠ 0 := (and_shift_ne_zero b (6 - a)).2 hb
      simp [List.filter_cons, hb, h1]
    · have h1 : ¬ (b &&& (1 <<< (6 - a)) ≠ 0) := fun h => hb ((and_shift_ne_zero b (6 - a)).1 h)
      simp only [ne_eq, Decidable.not_not] at h1
      simp [List.filter_cons, hb, h1]

theorem mem_draw_module (b : Nat) (length pos : Int) (op : DrawOp) :
    op ∈ (draw_module b length (List.range 7) pos).1 ↔
      ∃ k : Nat, k < 7 ∧ b.testBit (6 - k) = true ∧ op = DrawOp.DrawVLine (pos + (k : Int)) 0 length := by
  rw [List.range_eq_range', draw_module_range']
  simp only [List.mem_map, List.mem_filter, List.mem_range'_1]
  constructor
  · rintro ⟨k, ⟨⟨_, hk⟩, hb⟩, rfl⟩
    exact ⟨k, by omega, hb, by simp⟩
  · rintro ⟨k, hk, hb, rfl⟩
    exact ⟨k, ⟨⟨by omega, by omega⟩, hb⟩, by simp⟩

theorem digit_body_snd (str : List Nat) (type : barcode_type_e) (mid N first_digit i : Nat)
    (pos : Int) :
    (digit_body str type mid N first_digit i pos).2 = pos + 7 + (if i = mid then 5 else 0) := by
  simp only [digit_body, draw_module_snd, List.length_range]
  split_ifs <;> push_cast <;> ring

theorem digits_loop_range' (str : List Nat) (type : barcode_type_e) (mid N first_digit : Nat)
    (a n : Nat) (pos : Int) :
    digits_loop str type mid N first_digit (List.range' a n) pos =
      ((List.range' a n).flatMap
          (fun i => (digit_body str type mid N first_digit i (entry_col mid a pos i)).1),
        pos + 7 * (n : Int) + (if a ≤ mid ∧ mid < a + n then 5 else 0)) := by
  induction n generalizing a pos with
  | zero =>
    have : ¬ (a ≤ mid ∧ mid < a + 0) := by omega
    simp [digits_loop, this]
  | succ n ih =>
    rw [List.range'_succ]
    simp only [digits_loop, ih, digit_body_snd, List.flatMap_cons]
    have hentry : entry_col mid a pos a = pos := by
      have : ¬ (a ≤ mid ∧ mid < a) := by omega
      simp [entry_col, this]
    have hrest : ∀ i ∈ List.range' (a + 1) n,
        (digit_body str type mid N first_digit i
            (entry_col mid (a + 1) (pos + 7 + (if a = mid then 5 else 0)) i)).1
          = (digit_body str type mid N first_digit i (entry_col mid a pos i)).1 := by
      intro i hi
      rw [List.mem_range'_1] at hi
      have : entry_col mid (a + 1) (pos + 7 + (if a = mid then 5 else 0)) i
          = entry_col mid a pos i := by
        simp only [entry_col]
        push_cast
        split_ifs <;> omega
      rw [this]
    rw [List.flatMap_congr hrest, hentry]
    refine Prod.ext rfl ?_
    simp only
    push_cast
    split_ifs <;> omega

theorem vline_cols_draw_header (str : List Nat) (type : barcode_type_e) (pos : Int) :
    vline_cols (draw_header str type pos) = [] := by
  cases type <;> simp [draw_header, vline_cols]

theorem vline_cols_render (str : List Nat) (type : barcode_type_e) (mid : Nat) :
    vline_cols (render str type mid) =
      [start_column str.length, start_column str.length + 2] ++
      vline_cols (digits_loop str type mid str.length (digit_at str 0)
        (List.range' (start_idx type) (str.length - start_idx type))
        (start_column str.length + 3)).1 ++
      [(digits_loop str type mid str.length (digit_at str 0)
        (List.range' (start_idx type) (str.length - start_idx type))
        (start_column str.length + 3)).2,
       (digits_loop str type mid str.length (digit_at str 0)
        (List.range' (start_idx type) (str.length - start_idx type))
        (start_column str.length + 3)).2 + 2] := by
  simp only [render, vline_cols_append, vline_cols_draw_header, draw_guard]
  cases type <;> simp [vline_cols]

theorem mem_digit_body_vline (str : List Nat) (type : barcode_type_e) (mid N first_digit i : Nat)
    (pos x y l : Int) :
    DrawOp.DrawVLine x y l ∈ (digit_body str type mid N first_digit i pos).1 ↔
      (i = mid ∧ (x = pos + 1 ∨ x = pos + 3) ∧ y = 0 ∧ l = DISPLAY_HEIGHT) ∨
      (∃ k : Nat, k < 7 ∧
        (digit_pattern type mid first_digit i (digit_at str i)).testBit (6 - k) = true ∧
        x = pos + (if i = mid then 5 else 0) + (k : Int) ∧ y = 0 ∧
        l = (if type = barcode_type_e.UPC_A ∧ (i = 0 ∨ i = N - 1) then DISPLAY_HEIGHT
              else DISPLAY_HEIGHT - 8)) := by
  have hglyph : ∀ (c : Prop) [Decidable c] (gx gy : Int) (ch : Nat),
      DrawOp.DrawVLine x y l ∉ (if c then [DrawOp.DrawGlyph gx gy ch] else []) := by
    intro c _ gx gy ch
    split_ifs <;> simp
  have hcentre : DrawOp.DrawVLine x y l ∈
      (if i = mid then
        [DrawOp.DrawVLine (pos + 1) 0 DISPLAY_HEIGHT, DrawOp.DrawVLine (pos + 3) 0 DISPLAY_HEIGHT]
       else []) ↔ (i = mid ∧ (x = pos + 1 ∨ x = pos + 3) ∧ y = 0 ∧ l = DISPLAY_HEIGHT) := by
    split_ifs with h
    · simp only [List.mem_cons, List.mem_singleton, DrawOp.DrawVLine.injEq, List.not_mem_nil,
        or_false, h, true_and]
      tauto
    · simp [h]
  have hpos : (if i = mid then pos + 5 else pos) = pos + (if i = mid then 5 else 0) := by
    split_ifs <;> simp
  simp only [digit_body, List.mem_append, mem_draw_module, hcentre, DrawOp.DrawVLine.injEq, hpos]
  constructor
  · rintro ((h | h) | ⟨k, hk, hb, hx, hy, hl⟩)
    · exact Or.inl h
    · exact absurd h (hglyph _ _ _ _)
    · exact Or.inr ⟨k, hk, hb, hx, hy, hl⟩
  · rintro (h | ⟨k, hk, hb, hx, hy, hl⟩)
    · exact Or.inl (Or.inl h)
    · exact Or.inr ⟨k, hk, hb, hx, hy, hl⟩

/-- The columns of the vertical strokes of a rendering: the two bars of the
start guard, then for each digit index `i` of the loop the centre guard (when
`i = mid`) and one stroke per 1 bit of the digit's pattern, then the two bars
of the end guard. -/
theorem mem_vline_cols_render (str : List Nat) (type : barcode_type_e) (mid : Nat) (x : Int) :
    x ∈ vline_cols (render str type mid) ↔
      x = start_column str.length ∨ x = start_column str.length + 2 ∨
      (∃ i, start_idx type ≤ i ∧ i < start_idx type + (str.length - start_idx type) ∧
        ((i = mid ∧
            (x = entry_col mid (start_idx type) (start_column str.length + 3) i + 1 ∨
             x = entry_col mid (start_idx type) (start_column str.length + 3) i + 3)) ∨
         (∃ k : Nat, k < 7 ∧
            (digit_pattern type mid (digit_at str 0) i (digit_at str i)).testBit (6 - k) = true ∧
            x = entry_col mid (start_idx type) (start_column str.length + 3) i
                  + (if i = mid then 5 else 0) + (k : Int)))) ∨
      x = start_column str.length + 3 + 7 * ((str.length - start_idx type : Nat) : Int)
            + (if start_idx type ≤ mid ∧ mid < start_idx type + (str.length - start_idx type)
                then 5 else 0) ∨
      x = start_column str.length + 3 + 7 * ((str.length - start_idx type : Nat) : Int)
            + (if start_idx type ≤ mid ∧ mid < start_idx type + (str.length - start_idx type)
                then 5 else 0) + 2 := by
  rw [vline_cols_render, digits_loop_range']
  simp only [List.mem_append, List.mem_cons, List.mem_singleton, List.not_mem_nil, or_false,
    mem_vline_cols, List.mem_flatMap, List.mem_range'_1, mem_digit_body_vline]
  constructor
  · rintro (((h | h) | ⟨y, l, i, ⟨hi1, hi2⟩, h⟩) | (h | h))
    · exact Or.inl h
    · exact Or.inr (Or.inl h)
    · refine Or.inr (Or.inr (Or.inl ⟨i, hi1, hi2, ?_⟩))
      rcases h with ⟨hm, hx, _, _⟩ | ⟨k, hk, hb, hx, _, _⟩
      · exact Or.inl ⟨hm, hx⟩
      · exact Or.inr ⟨k, hk, hb, hx⟩
    · exact Or.inr (Or.inr (Or.inr (Or.inl h)))
    · exact Or.inr (Or.inr (Or.inr (Or.inr h)))
  · rintro (h | h | ⟨i, hi1, hi2, h⟩ | h | h)
    · exact Or.inl (Or.inl (Or.inl h))
    · exact Or.inl (Or.inl (Or.inr h))
    · rcases h with ⟨hm, hx⟩ | ⟨k, hk, hb, hx⟩
      · exact Or.inl (Or.inr ⟨0, DISPLAY_HEIGHT, i, ⟨hi1, hi2⟩, Or.inl ⟨hm, hx, rfl, rfl⟩⟩)
      · exact Or.inl (Or.inr ⟨0, _, i, ⟨hi1, hi2⟩, Or.inr ⟨k, hk, hb, hx, rfl, rfl⟩⟩)
    · exact Or.inr (Or.inl h)
    · exact Or.inr (Or.inr h)

/-! ## Valid digit strings -/

theorem getD_digit (str : List Nat) (hdig : ∀ c ∈ str, 48 ≤ c ∧ c ≤ 57) (i : Nat)
    (hi : i < str.length) : 48 ≤ str.getD i 0 ∧ str.getD i 0 ≤ 57 := by
  rw [List.getD_eq_getElem str 0 hi]
  exact hdig _ (List.getElem_mem hi)

theorem digit_at_lt (str : List Nat) (hdig : ∀ c ∈ str, 48 ≤ c ∧ c ≤ 57) (i : Nat)
    (hi : i < str.length) : digit_at str i < 10 := by
  have := getD_digit str hdig i hi
  unfold digit_at
  omega

theorem L_code_lt (d : Nat) (hd : d < 10) : L_code d < 128 := by
  interval_cases d <;> decide

theorem G_code_ne_L_code (d : Nat) (hd : d < 10) : G_code d ≠ L_code d := by
  interval_cases d <;> decide

theorem start_column_values :
    start_column 8 = 30 ∧ start_column 12 = 16 ∧ start_column 13 = 13 := by
  decide

/-- The pattern drawn for a digit left of the midpoint of an EAN-13 symbol. -/
theorem digit_pattern_ean13_left (f p d : Nat) (hp1 : 1 ≤ p) (hp6 : p ≤ 6) (hd : d < 10) :
    digit_pattern barcode_type_e.EAN_13 7 f p d =
      if (ean_13_left_parity.getD f 0).testBit (5 - (p - 1)) = true then G_code d
      else L_code d := by
  have hmid : ¬ (p ≥ 7) := by omega
  have hshift : (5 - ((p : Int) - 1)).toNat = 5 - (p - 1) := by omega
  have hG : swap7bits (not8 (bar_code_digits.getD d 0)) = G_code d :=
    (bytes_facts (L_code d) (by have := L_code_lt d hd; omega)).2.1
  simp only [digit_pattern, hmid, if_false, if_true, hshift, hG]
  by_cases hb : (ean_13_left_parity.getD f 0).testBit (5 - (p - 1)) = true
  · rw [if_pos ((and_shift_ne_zero _ _).2 hb), if_pos hb]
  · rw [if_neg (fun h => hb ((and_shift_ne_zero _ _).1 h)), if_neg hb]
    rfl

/-! ## Encoding of a digit -/

/-- C6: for a digit `d` in 0..9 at an index in the right half (`mid ≤ i`) the
code computes the 8-bit complement of the table entry; the 7 bits that the
stroke loop reads from it (bits 6..0) are `L(d) XOR 0x7F`, the strokes drawn
are those of that 7-bit pattern, and bit 7, which the 8-bit complement sets,
produces no stroke. -/
theorem r_code_is_seven_bit_complement (d : Nat) (hd : d < 10) (type : barcode_type_e)
    (mid first_digit i : Nat) (hi : mid ≤ i) (length pos : Int) :
    digit_pattern type mid first_digit i d = not8 (bar_code_digits.getD d 0) ∧
    digit_pattern type mid first_digit i d % 128 = bar_code_digits.getD d 0 ^^^ 0x7F ∧
    digit_pattern type mid first_digit i d % 128 = R_code d ∧
    (digit_pattern type mid first_digit i d).testBit 7 = true ∧
    draw_module (digit_pattern type mid first_digit i d) length (List.range 7) pos
      = draw_module (bar_code_digits.getD d 0 ^^^ 0x7F) length (List.range 7) pos := by
  have hp : digit_pattern type mid first_digit i d = not8 (bar_code_digits.getD d 0) := by
    simp [digit_pattern, hi]
  have hm : not8 (bar_code_digits.getD d 0) % 128 = bar_code_digits.getD d 0 ^^^ 0x7F := by
    interval_cases d <;> decide
  have hr : not8 (bar_code_digits.getD d 0) % 128 = R_code d := by
    interval_cases d <;> decide
  have h7 : (not8 (bar_code_digits.getD d 0)).testBit 7 = true := by
    interval_cases d <;> decide
  refine ⟨hp, by rw [hp, hm], by rw [hp, hr], by rw [hp, h7], ?_⟩
  rw [← draw_module_mod128 (digit_pattern type mid first_digit i d), hp, hm]

/-- Witness of C6 at digit 0, index 6 of a UPC-A symbol: `L(0) = 0b0001101`
gives the byte `0b11110010`, whose bits 6..0 are `R(0) = 0b1110010`. -/
theorem r_code_is_seven_bit_complement_witness :
    (0 < 10) ∧ (6 ≤ 6) ∧ bar_code_digits.getD 0 0 = 0b0001101 ∧
    (digit_pattern barcode_type_e.UPC_A 6 0 6 0 = not8 (bar_code_digits.getD 0 0) ∧
     digit_pattern barcode_type_e.UPC_A 6 0 6 0 % 128 = bar_code_digits.getD 0 0 ^^^ 0x7F ∧
     digit_pattern barcode_type_e.UPC_A 6 0 6 0 % 128 = R_code 0 ∧
     (digit_pattern barcode_type_e.UPC_A 6 0 6 0).testBit 7 = true ∧
     draw_module (digit_pattern barcode_type_e.UPC_A 6 0 6 0) 24 (List.range 7) 61
       = draw_module (bar_code_digits.getD 0 0 ^^^ 0x7F) 24 (List.range 7) 61) ∧
    digit_pattern barcode_type_e.UPC_A 6 0 6 0 % 128 = 0b1110010 :=
  ⟨by decide, by decide, by decide,
   r_code_is_seven_bit_complement 0 (by decide) barcode_type_e.UPC_A 6 0 6 (by decide) 24 61,
   by decide⟩

/-- C7: for a digit `d` in 0..9 the G-code that the code computes,
`swap7bits(~L(d))`, is the 7-bit complement of the 7-bit reversal of `L(d)`;
and for every byte `a`, `swap7bits` is the 7-bit reversal and commutes with
the 7-bit complement. -/
theorem g_code_is_complement_of_reversal (d : Nat) (hd : d < 10) (a : Nat) (ha : a < 256) :
    swap7bits (not8 (bar_code_digits.getD d 0)) = not7 (bit_reverse_7 (bar_code_digits.getD d 0)) ∧
    swap7bits (not8 (bar_code_digits.getD d 0)) = G_code d ∧
    swap7bits a = bit_reverse_7 a ∧
    swap7bits (not8 a) = not7 (bit_reverse_7 a) ∧
    swap7bits (not7 a) = not7 (swap7bits a) := by
  have hL : L_code d < 256 := by have := L_code_lt d hd; omega
  have h1 := bytes_facts (L_code d) hL
  have h2 := bytes_facts a ha
  exact ⟨h1.2.1, h1.2.1, h2.1, h2.2.1, h2.2.2.1⟩

/-- Witness of C7 at digit 3 and byte `0b10110001`. -/
theorem g_code_is_complement_of_reversal_witness :
    (3 < 10) ∧ (0b10110001 < 256) ∧
    swap7bits (not8 (bar_code_digits.getD 3 0)) = not7 (bit_reverse_7 (bar_code_digits.getD 3 0)) ∧
    swap7bits (not8 (bar_code_digits.getD 3 0)) = G_code 3 ∧
    swap7bits 0b10110001 = bit_reverse_7 0b10110001 ∧
    swap7bits (not8 0b10110001) = not7 (bit_reverse_7 0b10110001) ∧
    swap7bits (not7 0b10110001) = not7 (swap7bits 0b10110001) :=
  ⟨by decide, by decide, g_code_is_complement_of_reversal 3 (by decide) 0b10110001 (by decide)⟩

/-- C8: in the rendering of a valid 13-digit string, the 7 columns of the left
position `p` in 1..6 (string index `p`) carry strokes exactly at the 1 bits,
most significant first, of the G-code of the digit when bit `5 - (p - 1)` of
`ean_13_left_parity[first digit]` is 1 and of its L-code when that bit is 0
(the two codes always differ); for first digit 0 the bit is 0 at all six
positions, for first digit 1 it is 1 exactly at positions 3, 5 and 6. -/
theorem ean13_parity_selects_g_or_l (str : List Nat) (hlen : str.length = 13)
    (hdig : ∀ c ∈ str, 48 ≤ c ∧ c ≤ 57) (p : Nat) (hp1 : 1 ≤ p) (hp6 : p ≤ 6) :
    (∀ k : Nat, k < 7 →
      (start_column 13 + 3 + 7 * ((p : Int) - 1) + (k : Int) ∈ vline_cols (draw_bar_code str).2 ↔
        (if (ean_13_left_parity.getD (digit_at str 0) 0).testBit (5 - (p - 1)) = true
          then G_code (digit_at str p) else L_code (digit_at str p)).testBit (6 - k) = true)) ∧
    G_code (digit_at str p) ≠ L_code (digit_at str p) ∧
    (digit_at str 0 = 0 →
      (ean_13_left_parity.getD (digit_at str 0) 0).testBit (5 - (p - 1)) = false) ∧
    (digit_at str 0 = 1 →
      ((ean_13_left_parity.getD (digit_at str 0) 0).testBit (5 - (p - 1)) = true ↔
        p = 3 ∨ p = 5 ∨ p = 6)) := by
  have hd : digit_at str p < 10 := digit_at_lt str hdig p (by omega)
  refine ⟨?_, G_code_ne_L_code _ hd, ?_, ?_⟩
  · intro k hk
    rw [draw_bar_code_valid str (by omega) hdig, hlen]
    have hc : classify 13 = (barcode_type_e.EAN_13, 7) := rfl
    simp only [hc]
    rw [mem_vline_cols_render, hlen, ← digit_pattern_ean13_left _ p _ hp1 hp6 hd]
    have hs : start_column 13 = 13 := by decide
    have ha : start_idx barcode_type_e.EAN_13 = 1 := rfl
    simp only [hs, ha, entry_col]
    constructor
    · rintro (h | h | ⟨i, hi1, hi2, (⟨hm, hx⟩ | ⟨k', hk', hb, hx⟩)⟩ | h | h)
      · omega
      · omega
      · exfalso
        subst hm
        simp only [show ((1 : Nat) ≤ 7 ∧ 7 < 7) = False from by simp, if_false] at hx
        push_cast at hx
        omega
      · have hip : i = p ∧ k' = k := by
          split_ifs at hx <;> push_cast at hx <;> omega
        obtain ⟨rfl, rfl⟩ := hip
        exact hb
      · split_ifs at h <;> push_cast at h <;> omega
      · split_ifs at h <;> push_cast at h <;> omega
    · intro hb
      refine Or.inr (Or.inr (Or.inl ⟨p, by omega, by omega, Or.inr ⟨k, hk, hb, ?_⟩⟩))
      have h1 : ¬ ((1 : Nat) ≤ 7 ∧ 7 < p) := by omega
      have h2 : ¬ (p = 7) := by omega
      simp only [h1, h2, if_false]
      omega
  · intro h0
    rw [h0]
    interval_cases p <;> decide
  · intro h1
    rw [h1]
    interval_cases p <;> decide

/-- Witness of C8 at `"1123456789012"` (first digit 1) and position 3, which
is drawn with the G-code. -/
theorem ean13_parity_selects_g_or_l_witness :
    (bytes "1123456789012").length = 13 ∧
    (∀ c ∈ bytes "1123456789012", 48 ≤ c ∧ c ≤ 57) ∧ 1 ≤ 3 ∧ 3 ≤ 6 ∧
    ((∀ k : Nat, k < 7 →
      (start_column 13 + 3 + 7 * (((3 : Nat) : Int) - 1) + (k : Int)
          ∈ vline_cols (draw_bar_code (bytes "1123456789012")).2 ↔
        (if (ean_13_left_parity.getD (digit_at (bytes "1123456789012") 0) 0).testBit
              (5 - (3 - 1)) = true
          then G_code (digit_at (bytes "1123456789012") 3)
          else L_code (digit_at (bytes "1123456789012") 3)).testBit (6 - k) = true)) ∧
    G_code (digit_at (bytes "1123456789012") 3) ≠ L_code (digit_at (bytes "1123456789012") 3) ∧
    (digit_at (bytes "1123456789012") 0 = 0 →
      (ean_13_left_parity.getD (digit_at (bytes "1123456789012") 0) 0).testBit (5 - (3 - 1))
        = false) ∧
    (digit_at (bytes "1123456789012") 0 = 1 →
      ((ean_13_left_parity.getD (digit_at (bytes "1123456789012") 0) 0).testBit (5 - (3 - 1))
          = true ↔
        3 = 3 ∨ 3 = 5 ∨ 3 = 6))) :=
  ⟨by decide, by decide, by decide, by decide,
   ean13_parity_selects_g_or_l (bytes "1123456789012") (by decide) (by decide) 3
     (by decide) (by decide)⟩

/-! ## Horizontal layout -/

/-- The first stroke, the last stroke and the extent of the strokes of a
rendering with `start_idx type ≤ mid < str.length`. -/
theorem render_strokes_span (str : List Nat) (type : barcode_type_e) (mid : Nat)
    (h1 : start_idx type ≤ mid) (h2 : mid < str.length) :
    (vline_cols (render str type mid)).head? = some (start_column str.length) ∧
    (vline_cols (render str type mid)).getLast? =
      some (start_column str.length + 7 * ((str.length - start_idx type : Nat) : Int) + 10) ∧
    stroke_extent (render str type mid) =
      7 * ((str.length - start_idx type : Nat) : Int) + 11 := by
  have hin : start_idx type ≤ mid ∧ mid < start_idx type + (str.length - start_idx type) := by
    omega
  have hhead : (vline_cols (render str type mid)).head? = some (start_column str.length) := by
    rw [vline_cols_render]; rfl
  have hlast : (vline_cols (render str type mid)).getLast? =
      some (start_column str.length + 7 * ((str.length - start_idx type : Nat) : Int) + 10) := by
    rw [vline_cols_render, digits_loop_range']
    simp only [hin, and_self, if_true]
    rw [List.getLast?_append]
    simp only [List.getLast?_cons_cons, List.getLast?_singleton, Option.or_some]
    simp only [Option.some.injEq]
    ring
  refine ⟨hhead, hlast, ?_⟩
  simp only [stroke_extent, hhead, hlast]
  ring

/-- The cursor after the digit loop of a rendering with
`start_idx type ≤ mid < str.length`. -/
theorem render_cursor_after_digits (str : List Nat) (type : barcode_type_e) (mid : Nat)
    (h1 : start_idx type ≤ mid) (h2 : mid < str.length) :
    (digits_loop str type mid str.length (digit_at str 0)
        (List.range' (start_idx type) (str.length - start_idx type))
        (start_column str.length + 3)).2
      = start_column str.length + 3 + 7 * ((str.length - start_idx type : Nat) : Int) + 5 := by
  have hin : start_idx type ≤ mid ∧ mid < start_idx type + (str.length - start_idx type) := by
    omega
  rw [digits_loop_range']
  simp only [hin, and_self, if_true]

/-- C9, as the spec states it, fails for a 13-digit input: the strokes of
`"0123456789012"` run from column 13 to column 107, an extent of 95 columns and
not `13 * 7 + 11 = 102`. -/
theorem extent_of_ean13_is_not_N7_plus_11 :
    (bytes "0123456789012").length = 13 ∧
    (∀ c ∈ bytes "0123456789012", 48 ≤ c ∧ c ≤ 57) ∧
    (draw_bar_code (bytes "0123456789012")).1 = esp_err_t.ESP_OK ∧
    stroke_extent (draw_bar_code (bytes "0123456789012")).2 = 95 ∧
    stroke_extent (draw_bar_code (bytes "0123456789012")).2
      ≠ ((bytes "0123456789012").length : Int) * 7 + 11 := by
  have hv := draw_bar_code_valid (bytes "0123456789012") (by decide) (by decide)
  have hspan := (render_strokes_span (bytes "0123456789012") barcode_type_e.EAN_13 7
    (by decide) (by decide)).2.2
  have hext : stroke_extent (draw_bar_code (bytes "0123456789012")).2 = 95 := by
    rw [hv]
    exact hspan
  refine ⟨by decide, by decide, by rw [hv], hext, ?_⟩
  rw [hext]
  decide

/-- C9 amended: for a valid digit string the extent of the strokes, from the
first start-guard bar to the last end-guard bar inclusive, is `7 * D + 11`
where `D` is the number of digits drawn as bars: `D = N` for `N = 8` and
`N = 12` (extents 67 and 95) and `D = 12` for `N = 13` (extent 95); the cursor
advances by the same amount from before the start guard to after the end
guard. -/
theorem extent_is_seven_per_bar_digit_plus_11 (str : List Nat)
    (hlen : str.length = 8 ∨ str.length = 12 ∨ str.length = 13)
    (hdig : ∀ c ∈ str, 48 ≤ c ∧ c ≤ 57) :
    stroke_extent (draw_bar_code str).2
      = 7 * ((if str.length = 13 then 12 else str.length : Nat) : Int) + 11 ∧
    (digits_loop str (classify str.length).1 (classify str.length).2 str.length (digit_at str 0)
        (List.range' (start_idx (classify str.length).1)
          (str.length - start_idx (classify str.length).1))
        (start_column str.length + 3)).2 + 3 - start_column str.length
      = 7 * ((if str.length = 13 then 12 else str.length : Nat) : Int) + 11 ∧
    (str.length = 8 → stroke_extent (draw_bar_code str).2 = 67) ∧
    (str.length = 12 → stroke_extent (draw_bar_code str).2 = 95) ∧
    (str.length = 13 → stroke_extent (draw_bar_code str).2 = 95) := by
  rw [draw_bar_code_valid str hlen hdig]
  rcases hlen with h | h | h
  · have hc : classify str.length = (barcode_type_e.EAN_8, 4) := by rw [h]; rfl
    have hspan := (render_strokes_span str barcode_type_e.EAN_8 4 (by decide) (by omega)).2.2
    have hcur := render_cursor_after_digits str barcode_type_e.EAN_8 4 (by decide) (by omega)
    have ha : start_idx barcode_type_e.EAN_8 = 0 := rfl
    simp only [hc]
    rw [hspan, hcur]
    simp only [ha, h]
    norm_num
    ring
  · have hc : classify str.length = (barcode_type_e.UPC_A, 6) := by rw [h]; rfl
    have hspan := (render_strokes_span str barcode_type_e.UPC_A 6 (by decide) (by omega)).2.2
    have hcur := render_cursor_after_digits str barcode_type_e.UPC_A 6 (by decide) (by omega)
    have ha : start_idx barcode_type_e.UPC_A = 0 := rfl
    simp only [hc]
    rw [hspan, hcur]
    simp only [ha, h]
    norm_num
    ring
  · have hc : classify str.length = (barcode_type_e.EAN_13, 7) := by rw [h]; rfl
    have hspan := (render_strokes_span str barcode_type_e.EAN_13 7 (by decide) (by omega)).2.2
    have hcur := render_cursor_after_digits str barcode_type_e.EAN_13 7 (by decide) (by omega)
    have ha : start_idx barcode_type_e.EAN_13 = 1 := rfl
    simp only [hc]
    rw [hspan, hcur]
    simp only [ha, h]
    norm_num
    ring

/-- Witness of C9 (amended) at the EAN-8 input `"01234565"`: 67 columns. -/
theorem extent_is_seven_per_bar_digit_plus_11_witness :
    ((bytes "01234565").length = 8 ∨ (bytes "01234565").length = 12 ∨
      (bytes "01234565").length = 13) ∧
    (∀ c ∈ bytes "01234565", 48 ≤ c ∧ c ≤ 57) ∧
    stroke_extent (draw_bar_code (bytes "01234565")).2 = 67 :=
  ⟨by decide, by decide,
   (extent_is_seven_per_bar_digit_plus_11 (bytes "01234565") (by decide) (by decide)).2.2.1
     (by decide)⟩

/-- No stroke of a rendering lies left of the start column, and the only
strokes left of column `start + 3` are the two bars of the start guard. -/
theorem render_cols_ge (str : List Nat) (type : barcode_type_e) (mid : Nat) (x : Int)
    (hx : x ∈ vline_cols (render str type mid)) :
    x = start_column str.length ∨ x = start_column str.length + 2 ∨
      start_column str.length + 3 ≤ x := by
  rw [mem_vline_cols_render] at hx
  rcases hx with h | h | ⟨i, hi1, hi2, (⟨hm, hx⟩ | ⟨k, hk, hb, hx⟩)⟩ | h | h
  · exact Or.inl h
  · exact Or.inr (Or.inl h)
  · refine Or.inr (Or.inr ?_)
    simp only [entry_col] at hx
    split_ifs at hx <;> omega
  · refine Or.inr (Or.inr ?_)
    simp only [entry_col] at hx
    split_ifs at hx <;> omega
  · refine Or.inr (Or.inr ?_)
    split_ifs at h <;> omega
  · refine Or.inr (Or.inr ?_)
    split_ifs at h <;> omega

/-- C10: for a valid string of `N` digits the first vertical stroke is at
column `start = (128 - (N * 7 + 11)) / 2` (30, 16 and 13 for `N` = 8, 12 and
13), the second one at `start + 2`, and no stroke is drawn at `start + 1`. -/
theorem start_guard_at_start_column (str : List Nat)
    (hlen : str.length = 8 ∨ str.length = 12 ∨ str.length = 13)
    (hdig : ∀ c ∈ str, 48 ≤ c ∧ c ≤ 57) :
    (vline_cols (draw_bar_code str).2).head? = some (start_column str.length) ∧
    (vline_cols (draw_bar_code str).2)[1]? = some (start_column str.length + 2) ∧
    start_column str.length + 1 ∉ vline_cols (draw_bar_code str).2 ∧
    start_column str.length = (128 - ((str.length : Int) * 7 + 11)) / 2 ∧
    (str.length = 8 → start_column str.length = 30) ∧
    (str.length = 12 → start_column str.length = 16) ∧
    (str.length = 13 → start_column str.length = 13) := by
  rw [draw_bar_code_valid str hlen hdig]
  refine ⟨?_, ?_, ?_, ?_, ?_, ?_, ?_⟩
  · rw [vline_cols_render]; rfl
  · rw [vline_cols_render]; simp
  · intro hmem
    have := render_cols_ge str _ _ _ hmem
    omega
  · rcases hlen with h | h | h <;> rw [h] <;> decide
  · intro h; rw [h]; decide
  · intro h; rw [h]; decide
  · intro h; rw [h]; decide

/-- Witness of C10 at the UPC-A input `"012345678912"`: bars at columns 16 and
18, none at 17. -/
theorem start_guard_at_start_column_witness :
    ((bytes "012345678912").length = 8 ∨ (bytes "012345678912").length = 12 ∨
      (bytes "012345678912").length = 13) ∧
    (∀ c ∈ bytes "012345678912", 48 ≤ c ∧ c ≤ 57) ∧
    (vline_cols (draw_bar_code (bytes "012345678912")).2).head?
      = some (start_column (bytes "012345678912").length) ∧
    (vline_cols (draw_bar_code (bytes "012345678912")).2)[1]?
      = some (start_column (bytes "012345678912").length + 2) ∧
    start_column (bytes "012345678912").length + 1
      ∉ vline_cols (draw_bar_code (bytes "012345678912")).2 ∧
    start_column (bytes "012345678912").length = 16 :=
  ⟨by decide, by decide,
   (start_guard_at_start_column (bytes "012345678912") (by decide) (by decide)).1,
   (start_guard_at_start_column (bytes "012345678912") (by decide) (by decide)).2.1,
   (start_guard_at_start_column (bytes "012345678912") (by decide) (by decide)).2.2.1,
   (start_guard_at_start_column (bytes "012345678912") (by decide) (by decide)).2.2.2.2.2.1
     (by decide)⟩

/-! ## The primitives of a rendering, one by one -/

theorem render_eq (str : List Nat) (type : barcode_type_e) (mid : Nat) :
    render str type mid =
      draw_header str type (start_column str.length) ++
      draw_guard (start_column str.length) ++
      (List.range' (start_idx type) (str.length - start_idx type)).flatMap
        (fun i => (digit_body str type mid str.length (digit_at str 0) i
          (entry_col mid (start_idx type) (start_column str.length + 3) i)).1) ++
      draw_guard (start_column str.length + 3 + 7 * ((str.length - start_idx type : Nat) : Int)
        + (if start_idx type ≤ mid ∧ mid < start_idx type + (str.length - start_idx type)
            then 5 else 0)) ++
      (if type = barcode_type_e.UPC_A then
        [DrawOp.DrawGlyph
          (start_column str.length + 3 + 7 * ((str.length - start_idx type : Nat) : Int)
            + (if start_idx type ≤ mid ∧ mid < start_idx type + (str.length - start_idx type)
                then 5 else 0) + 3 + 1)
          (DISPLAY_HEIGHT - 1) (str.getD (str.length - 1) 0)]
       else []) ++
      [DrawOp.SendBuffer] := by
  simp only [render, digits_loop_range']

theorem entry_col_eq (type : barcode_type_e) (mid N i : Nat)
    (h1 : start_idx type ≤ mid) :
    entry_col mid (start_idx type) (start_column N + 3) i + (if i = mid then 5 else 0)
      = block_col type mid N i := by
  simp only [entry_col, block_col]
  split_ifs <;> omega

theorem mem_digit_body_glyph (str : List Nat) (type : barcode_type_e) (mid N first_digit i : Nat)
    (pos x y : Int) (c : Nat) :
    DrawOp.DrawGlyph x y c ∈ (digit_body str type mid N first_digit i pos).1 ↔
      (type ≠ barcode_type_e.UPC_A ∨ (i ≠ 0 ∧ i ≠ N - 1)) ∧
      x = pos + (if i = mid then 5 else 0) + 1 ∧ y = DISPLAY_HEIGHT - 1 ∧ c = str.getD i 0 := by
  have hcentre : DrawOp.DrawGlyph x y c ∉
      (if i = mid then
        [DrawOp.DrawVLine (pos + 1) 0 DISPLAY_HEIGHT, DrawOp.DrawVLine (pos + 3) 0 DISPLAY_HEIGHT]
       else []) := by
    split_ifs <;> simp
  have hbars : ∀ (b : Nat) (len p : Int),
      DrawOp.DrawGlyph x y c ∉ (draw_module b len (List.range 7) p).1 := by
    intro b len p h
    rw [mem_draw_module] at h
    obtain ⟨k, _, _, hk⟩ := h
    exact DrawOp.noConfusion hk
  have hpos : (if i = mid then pos + 5 else pos) = pos + (if i = mid then 5 else 0) := by
    split_ifs <;> simp
  have hglyph : ∀ (cond : Prop) [Decidable cond] (gx gy : Int) (gc : Nat),
      DrawOp.DrawGlyph x y c ∈ (if cond then [DrawOp.DrawGlyph gx gy gc] else []) ↔
        cond ∧ x = gx ∧ y = gy ∧ c = gc := by
    intro cond _ gx gy gc
    by_cases hc : cond
    · rw [if_pos hc]
      simp only [List.mem_singleton, DrawOp.DrawGlyph.injEq, hc, true_and]
    · rw [if_neg hc]
      simp [hc]
  simp only [digit_body, List.mem_append, hpos, hglyph]
  constructor
  · rintro ((h | h) | h)
    · exact absurd h hcentre
    · exact h
    · exact absurd h (hbars _ _ _)
  · intro h
    exact Or.inl (Or.inr h)

theorem mem_render (str : List Nat) (type : barcode_type_e) (mid : Nat) (op : DrawOp)
    (h1 : start_idx type ≤ mid) (h2 : mid < str.length) :
    op ∈ render str type mid ↔
      op ∈ draw_header str type (start_column str.length) ∨
      op ∈ draw_guard (start_column str.length) ∨
      (∃ i, start_idx type ≤ i ∧ i < str.length ∧
        op ∈ (digit_body str type mid str.length (digit_at str 0) i
          (entry_col mid (start_idx type) (start_column str.length + 3) i)).1) ∨
      op ∈ draw_guard
        (start_column str.length + 7 * ((str.length - start_idx type : Nat) : Int) + 8) ∨
      (type = barcode_type_e.UPC_A ∧
        op = DrawOp.DrawGlyph
          (start_column str.length + 7 * ((str.length - start_idx type : Nat) : Int) + 12)
          (DISPLAY_HEIGHT - 1) (str.getD (str.length - 1) 0)) ∨
      op = DrawOp.SendBuffer := by
  have hin : start_idx type ≤ mid ∧ mid < start_idx type + (str.length - start_idx type) := by
    omega
  have he : start_column str.length + 3 + 7 * ((str.length - start_idx type : Nat) : Int) + 5
      = start_column str.length + 7 * ((str.length - start_idx type : Nat) : Int) + 8 := by ring
  have hg : start_column str.length + 7 * ((str.length - start_idx type : Nat) : Int) + 8 + 3 + 1
      = start_column str.length + 7 * ((str.length - start_idx type : Nat) : Int) + 12 := by ring
  have htrail : ∀ g : DrawOp,
      op ∈ (if type = barcode_type_e.UPC_A then [g] else []) ↔
        (type = barcode_type_e.UPC_A ∧ op = g) := by
    intro g
    by_cases ht : type = barcode_type_e.UPC_A
    · simp [ht]
    · simp [ht]
  rw [render_eq]
  simp only [hin, and_self, if_true, he, hg, List.mem_append, List.mem_flatMap,
    List.mem_range'_1, List.mem_singleton, htrail]
  constructor
  · rintro (((((h | h) | ⟨i, ⟨hi1, hi2⟩, h⟩) | h) | h) | h)
    · exact Or.inl h
    · exact Or.inr (Or.inl h)
    · exact Or.inr (Or.inr (Or.inl ⟨i, hi1, by omega, h⟩))
    · exact Or.inr (Or.inr (Or.inr (Or.inl h)))
    · exact Or.inr (Or.inr (Or.inr (Or.inr (Or.inl h))))
    · exact Or.inr (Or.inr (Or.inr (Or.inr (Or.inr h))))
  · rintro (h | h | ⟨i, hi1, hi2, h⟩ | h | h | h)
    · exact Or.inl (Or.inl (Or.inl (Or.inl (Or.inl h))))
    · exact Or.inl (Or.inl (Or.inl (Or.inl (Or.inr h))))
    · exact Or.inl (Or.inl (Or.inl (Or.inr ⟨i, ⟨hi1, by omega⟩, h⟩)))
    · exact Or.inl (Or.inl (Or.inr h))
    · exact Or.inl (Or.inr h)
    · exact Or.inr h

theorem mem_draw_guard_vline (pos x y l : Int) :
    DrawOp.DrawVLine x y l ∈ draw_guard pos ↔
      (y = 0 ∧ l = DISPLAY_HEIGHT ∧ (x = pos ∨ x = pos + 2)) := by
  simp only [draw_guard, List.mem_cons, List.mem_singleton, List.not_mem_nil, or_false,
    DrawOp.DrawVLine.injEq]
  tauto

/-- The vertical strokes of a rendering with `start_idx type ≤ mid < length`:
the start guard, the centre guard, one stroke per 1 bit of each digit's
pattern, and the end guard. -/
theorem mem_render_vline (str : List Nat) (type : barcode_type_e) (mid : Nat) (x y l : Int)
    (h1 : start_idx type ≤ mid) (h2 : mid < str.length) :
    DrawOp.DrawVLine x y l ∈ render str type mid ↔
      (y = 0 ∧ l = DISPLAY_HEIGHT ∧
        (x = start_column str.length ∨ x = start_column str.length + 2)) ∨
      (y = 0 ∧ l = DISPLAY_HEIGHT ∧
        (x = block_col type mid str.length mid - 4 ∨ x = block_col type mid str.length mid - 2)) ∨
      (∃ i k : Nat, start_idx type ≤ i ∧ i < str.length ∧ k < 7 ∧
        (digit_pattern type mid (digit_at str 0) i (digit_at str i)).testBit (6 - k) = true ∧
        x = block_col type mid str.length i + (k : Int) ∧ y = 0 ∧
        l = stroke_length type str.length i) ∨
      (y = 0 ∧ l = DISPLAY_HEIGHT ∧
        (x = start_column str.length + 7 * ((str.length - start_idx type : Nat) : Int) + 8 ∨
         x = start_column str.length + 7 * ((str.length - start_idx type : Nat) : Int) + 10)) := by
  have hheader : DrawOp.DrawVLine x y l ∉ draw_header str type (start_column str.length) := by
    cases type <;> simp [draw_header]
  have h10 : start_column str.length + 7 * ((str.length - start_idx type : Nat) : Int) + 8 + 2
      = start_column str.length + 7 * ((str.length - start_idx type : Nat) : Int) + 10 := by ring
  rw [mem_render str type mid _ h1 h2]
  simp only [mem_draw_guard_vline, mem_digit_body_vline, h10]
  constructor
  · rintro (h | h | ⟨i, hi1, hi2, h⟩ | h | ⟨_, h⟩ | h)
    · exact absurd h hheader
    · exact Or.inl h
    · rcases h with ⟨hm, hx, hy, hl⟩ | ⟨k, hk, hb, hx, hy, hl⟩
      · refine Or.inr (Or.inl ⟨hy, hl, ?_⟩)
        subst hm
        rw [← entry_col_eq type i str.length i h1]
        simp only [if_true]
        rcases hx with hx | hx
        · exact Or.inl (by omega)
        · exact Or.inr (by omega)
      · refine Or.inr (Or.inr (Or.inl ⟨i, k, hi1, hi2, hk, hb, ?_, hy, hl⟩))
        rw [← entry_col_eq type mid str.length i h1]
        exact hx
    · exact Or.inr (Or.inr (Or.inr h))
    · exact DrawOp.noConfusion h
    · exact DrawOp.noConfusion h
  · rintro (h | ⟨hy, hl, hx⟩ | ⟨i, k, hi1, hi2, hk, hb, hx, hy, hl⟩ | h)
    · exact Or.inr (Or.inl h)
    · refine Or.inr (Or.inr (Or.inl ⟨mid, h1, h2, Or.inl ⟨rfl, ?_, hy, hl⟩⟩))
      rw [← entry_col_eq type mid str.length mid h1] at hx
      simp only [if_true] at hx
      rcases hx with hx | hx
      · exact Or.inl (by omega)
      · exact Or.inr (by omega)
    · refine Or.inr (Or.inr (Or.inl ⟨i, hi1, hi2, Or.inr ⟨k, hk, hb, ?_, hy, hl⟩⟩))
      rw [← entry_col_eq type mid str.length i h1] at hx
      exact hx
    · exact Or.inr (Or.inr (Or.inr (Or.inl h)))

/-- The glyphs of a rendering with `start_idx type ≤ mid < length`: the one
left of the start guard, those of the digits of the loop, and the one right of
the end guard. -/
theorem mem_render_glyph (str : List Nat) (type : barcode_type_e) (mid : Nat) (x y : Int)
    (c : Nat) (h1 : start_idx type ≤ mid) (h2 : mid < str.length) :
    DrawOp.DrawGlyph x y c ∈ render str type mid ↔
      (type ≠ barcode_type_e.EAN_8 ∧ x = start_column str.length - 6 ∧
        y = DISPLAY_HEIGHT - 1 ∧ c = str.getD 0 0) ∨
      (∃ i : Nat, start_idx type ≤ i ∧ i < str.length ∧
        (type ≠ barcode_type_e.UPC_A ∨ (i ≠ 0 ∧ i ≠ str.length - 1)) ∧
        x = block_col type mid str.length i + 1 ∧ y = DISPLAY_HEIGHT - 1 ∧ c = str.getD i 0) ∨
      (type = barcode_type_e.UPC_A ∧
        x = start_column str.length + 7 * ((str.length - start_idx type : Nat) : Int) + 12 ∧
        y = DISPLAY_HEIGHT - 1 ∧ c = str.getD (str.length - 1) 0) := by
  have hheader : DrawOp.DrawGlyph x y c ∈ draw_header str type (start_column str.length) ↔
      (type ≠ barcode_type_e.EAN_8 ∧ x = start_column str.length - 6 ∧
        y = DISPLAY_HEIGHT - 1 ∧ c = str.getD 0 0) := by
    cases type <;> simp [draw_header]
  have hguard : ∀ p : Int, DrawOp.DrawGlyph x y c ∉ draw_guard p := by
    intro p
    simp [draw_guard]
  rw [mem_render str type mid _ h1 h2]
  simp only [hheader, mem_digit_body_glyph, DrawOp.DrawGlyph.injEq]
  constructor
  · rintro (h | h | ⟨i, hi1, hi2, hg, hx, hy, hc⟩ | h | h | h)
    · exact Or.inl h
    · exact absurd h (hguard _)
    · refine Or.inr (Or.inl ⟨i, hi1, hi2, hg, ?_, hy, hc⟩)
      rw [← entry_col_eq type mid str.length i h1]
      exact hx
    · exact absurd h (hguard _)
    · exact Or.inr (Or.inr h)
    · exact DrawOp.noConfusion h
  · rintro (h | ⟨i, hi1, hi2, hg, hx, hy, hc⟩ | h)
    · exact Or.inl h
    · refine Or.inr (Or.inr (Or.inl ⟨i, hi1, hi2, hg, ?_, hy, hc⟩))
      rw [← entry_col_eq type mid str.length i h1] at hx
      exact hx
    · exact Or.inr (Or.inr (Or.inr (Or.inr (Or.inl h))))

/-! ## The three valid configurations -/

theorem classify_cases (N : Nat) (hlen : N = 8 ∨ N = 12 ∨ N = 13) :
    (N = 8 ∧ classify N = (barcode_type_e.EAN_8, 4)) ∨
    (N = 12 ∧ classify N = (barcode_type_e.UPC_A, 6)) ∨
    (N = 13 ∧ classify N = (barcode_type_e.EAN_13, 7)) := by
  rcases hlen with h | h | h <;> subst h <;> simp [classify]

theorem classify_bounds (N : Nat) (hlen : N = 8 ∨ N = 12 ∨ N = 13) :
    start_idx (classify N).1 ≤ (classify N).2 ∧ (classify N).2 < N := by
  rcases hlen with h | h | h <;> subst h <;> decide

/-- C11, as the spec states it, fails for a 12-digit input: the rendering of
the UPC-A string `"012345678912"` (start column 16) draws the first character
as a glyph at x = 16 - 6 = 10, left of the start guard. -/
theorem leading_glyph_drawn_for_upc_a :
    (bytes "012345678912").length = 12 ∧
    (∀ c ∈ bytes "012345678912", 48 ≤ c ∧ c ≤ 57) ∧
    start_column (bytes "012345678912").length = 16 ∧
    DrawOp.DrawGlyph 10 31 48 ∈ (draw_bar_code (bytes "012345678912")).2 := by
  refine ⟨by decide, by decide, by decide, ?_⟩
  rw [draw_bar_code_valid (bytes "012345678912") (by decide) (by decide)]
  have hc : classify (bytes "012345678912").length = (barcode_type_e.UPC_A, 6) := by decide
  rw [hc]
  rw [mem_render_glyph _ _ _ _ _ _ (by decide) (by decide)]
  exact Or.inl ⟨by decide, by decide, by decide, by decide⟩

/-- C11 amended: the first character is drawn as a glyph at x = start - 6 and
baseline y = 31, before the first stroke of the start guard, for every valid
13-digit and every valid 12-digit input; for a valid 8-digit input no glyph is
drawn left of the start guard (every glyph is at x = start + 4 or further). -/
theorem leading_glyph_unless_ean8 (str : List Nat)
    (hlen : str.length = 8 ∨ str.length = 12 ∨ str.length = 13)
    (hdig : ∀ c ∈ str, 48 ≤ c ∧ c ≤ 57) :
    (str.length = 13 ∨ str.length = 12 →
      (draw_bar_code str).2.take 6 =
        [DrawOp.SetDrawColor 1, DrawOp.DrawBox 0 0 128 32, DrawOp.SetDrawColor 0, DrawOp.SetFont,
         DrawOp.DrawGlyph (start_column str.length - 6) 31 (str.getD 0 0),
         DrawOp.DrawVLine (start_column str.length) 0 32]) ∧
    (str.length = 8 →
      (draw_bar_code str).2.take 5 =
        [DrawOp.SetDrawColor 1, DrawOp.DrawBox 0 0 128 32, DrawOp.SetDrawColor 0, DrawOp.SetFont,
         DrawOp.DrawVLine (start_column str.length) 0 32] ∧
      ∀ x y c, DrawOp.DrawGlyph x y c ∈ (draw_bar_code str).2 → start_column str.length + 4 ≤ x) := by
  rw [draw_bar_code_valid str hlen hdig]
  constructor
  · intro h
    have hc : (classify str.length).1 ≠ barcode_type_e.EAN_8 := by
      rcases h with h | h <;> rw [h] <;> decide
    rw [render_eq]
    simp [draw_header, hc, draw_guard, DISPLAY_WIDTH, DISPLAY_HEIGHT]
  · intro h
    have hc : classify str.length = (barcode_type_e.EAN_8, 4) := by rw [h]; rfl
    rw [hc]
    constructor
    · rw [render_eq]
      simp [draw_header, draw_guard, DISPLAY_WIDTH, DISPLAY_HEIGHT]
    · intro x y c hmem
      rw [mem_render_glyph _ _ _ _ _ _ (by decide) (by omega)] at hmem
      rcases hmem with ⟨hne, _⟩ | ⟨i, hi1, hi2, _, hx, _⟩ | ⟨hu, _⟩
      · exact absurd rfl hne
      · have ha : start_idx barcode_type_e.EAN_8 = 0 := rfl
        simp only [block_col, ha] at hx
        split_ifs at hx <;> omega
      · exact absurd hu (by decide)

/-- Witness of C11 (amended) at the EAN-13 input `"0123456789012"`. -/
theorem leading_glyph_unless_ean8_witness :
    ((bytes "0123456789012").length = 8 ∨ (bytes "0123456789012").length = 12 ∨
      (bytes "0123456789012").length = 13) ∧
    (∀ c ∈ bytes "0123456789012", 48 ≤ c ∧ c ≤ 57) ∧
    (draw_bar_code (bytes "0123456789012")).2.take 6 =
      [DrawOp.SetDrawColor 1, DrawOp.DrawBox 0 0 128 32, DrawOp.SetDrawColor 0, DrawOp.SetFont,
       DrawOp.DrawGlyph (start_column (bytes "0123456789012").length - 6) 31
         ((bytes "0123456789012").getD 0 0),
       DrawOp.DrawVLine (start_column (bytes "0123456789012").length) 0 32] :=
  ⟨by decide, by decide,
   (leading_glyph_unless_ean8 (bytes "0123456789012") (by decide) (by decide)).1
     (Or.inl (by decide))⟩

/-! ## Rendering on a surface -/

theorem render_take_header (str : List Nat) (type : barcode_type_e) (mid : Nat) :
    render str type mid =
      [DrawOp.SetDrawColor 1, DrawOp.DrawBox 0 0 128 32, DrawOp.SetDrawColor 0, DrawOp.SetFont]
        ++ (render str type mid).drop 4 := by
  have h : (render str type mid).take 4 =
      [DrawOp.SetDrawColor 1, DrawOp.DrawBox 0 0 128 32, DrawOp.SetDrawColor 0,
        DrawOp.SetFont] := by
    simp [render, draw_header, DISPLAY_WIDTH, DISPLAY_HEIGHT]
  rw [← h, List.take_append_drop]

theorem exec_header
    (glyph : Nat → Nat → Int → Int → Nat → (Fin 128 → Fin 32 → Nat) → (Fin 128 → Fin 32 → Nat))
    (s : Surface) :
    List.foldl (Surface.exec glyph) s
      [DrawOp.SetDrawColor 1, DrawOp.DrawBox 0 0 128 32, DrawOp.SetDrawColor 0, DrawOp.SetFont]
      = { pixel := fun _ _ => 1, color := 0, font := 1 } := by
  simp only [List.foldl, Surface.exec]
  rw [Surface.mk.injEq]
  refine ⟨?_, rfl, rfl⟩
  funext i j
  have hi := i.isLt
  have hj := j.isLt
  have : (0 : Int) ≤ ((i : Nat) : Int) ∧ ((i : Nat) : Int) < 0 + 128 ∧
      (0 : Int) ≤ ((j : Nat) : Int) ∧ ((j : Nat) : Int) < 0 + 32 := by omega
  simp only [this, and_self, if_true]

/-- The surface after a rendering does not depend on the surface before it. -/
theorem render_overwrites_surface
    (glyph : Nat → Nat → Int → Int → Nat → (Fin 128 → Fin 32 → Nat) → (Fin 128 → Fin 32 → Nat))
    (s s' : Surface) (str : List Nat) (type : barcode_type_e) (mid : Nat) :
    List.foldl (Surface.exec glyph) s (render str type mid)
      = List.foldl (Surface.exec glyph) s' (render str type mid) := by
  rw [render_take_header, List.foldl_append, List.foldl_append, exec_header, exec_header]

/-- C12: on the surface of section 6 of the spec, with any glyph renderer and
from any prior surface state, rendering a valid digit string twice in
succession leaves the same surface (pixel buffer, draw colour and font) as
rendering it once. -/
theorem render_twice_same_surface
    (glyph : Nat → Nat → Int → Int → Nat → (Fin 128 → Fin 32 → Nat) → (Fin 128 → Fin 32 → Nat))
    (s : Surface) (str : List Nat)
    (hlen : str.length = 8 ∨ str.length = 12 ∨ str.length = 13)
    (hdig : ∀ c ∈ str, 48 ≤ c ∧ c ≤ 57) :
    run_on (Surface.exec glyph) (run_on (Surface.exec glyph) s str) str
      = run_on (Surface.exec glyph) s str ∧
    (run_on (Surface.exec glyph) (run_on (Surface.exec glyph) s str) str).pixel
      = (run_on (Surface.exec glyph) s str).pixel := by
  have h : run_on (Surface.exec glyph) (run_on (Surface.exec glyph) s str) str
      = run_on (Surface.exec glyph) s str := by
    simp only [run_on, draw_bar_code_valid str hlen hdig]
    exact render_overwrites_surface glyph _ _ str _ _
  exact ⟨h, by rw [h]⟩

/-- Witness of C12 at `"01234565"`, with a glyph renderer that draws nothing
and a prior surface whose pixels are all 0. -/
theorem render_twice_same_surface_witness :
    ((bytes "01234565").length = 8 ∨ (bytes "01234565").length = 12 ∨
      (bytes "01234565").length = 13) ∧
    (∀ c ∈ bytes "01234565", 48 ≤ c ∧ c ≤ 57) ∧
    (run_on (Surface.exec (fun _ _ _ _ _ p => p))
        (run_on (Surface.exec (fun _ _ _ _ _ p => p))
          { pixel := fun _ _ => 0, color := 2, font := 0 } (bytes "01234565"))
        (bytes "01234565")).pixel
      = (run_on (Surface.exec (fun _ _ _ _ _ p => p))
          { pixel := fun _ _ => 0, color := 2, font := 0 } (bytes "01234565")).pixel :=
  ⟨by decide, by decide,
   (render_twice_same_surface (fun _ _ _ _ _ p => p)
     { pixel := fun _ _ => 0, color := 2, font := 0 } (bytes "01234565")
     (by decide) (by decide)).2⟩

/-! ## The modules of each digit -/

/-- The strokes in the 7 columns of the digit of index `i`: one at column
`block_col + k` for each 1 bit `6 - k` of the digit's byte, of the height of
that digit, and nothing else. -/
theorem block_strokes (str : List Nat) (type : barcode_type_e) (mid : Nat)
    (h1 : start_idx type ≤ mid) (h2 : mid < str.length) (i k : Nat)
    (hi1 : start_idx type ≤ i) (hi2 : i < str.length) (hk : k < 7) (y l : Int) :
    DrawOp.DrawVLine (block_col type mid str.length i + (k : Int)) y l ∈ render str type mid ↔
      ((digit_pattern type mid (digit_at str 0) i (digit_at str i)).testBit (6 - k) = true ∧
        y = 0 ∧ l = stroke_length type str.length i) := by
  rw [mem_render_vline str type mid _ _ _ h1 h2]
  constructor
  · rintro (⟨_, _, hx⟩ | ⟨_, _, hx⟩ | ⟨i', k', hi1', hi2', hk', hb, hx, hy, hl⟩ | ⟨_, _, hx⟩)
    · exfalso
      simp only [block_col] at hx
      split_ifs at hx <;> omega
    · exfalso
      simp only [block_col] at hx
      split_ifs at hx <;> omega
    · have hik : i' = i ∧ k' = k := by
        simp only [block_col] at hx
        split_ifs at hx <;> omega
      obtain ⟨rfl, rfl⟩ := hik
      exact ⟨hb, hy, hl⟩
    · exfalso
      simp only [block_col] at hx
      split_ifs at hx <;> omega
  · rintro ⟨hb, hy, hl⟩
    exact Or.inr (Or.inr (Or.inl ⟨i, k, hi1, hi2, hk, hb, rfl, hy, hl⟩))

theorem block_cols (str : List Nat) (type : barcode_type_e) (mid : Nat)
    (h1 : start_idx type ≤ mid) (h2 : mid < str.length) (i k : Nat)
    (hi1 : start_idx type ≤ i) (hi2 : i < str.length) (hk : k < 7) :
    block_col type mid str.length i + (k : Int) ∈ vline_cols (render str type mid) ↔
      (digit_pattern type mid (digit_at str 0) i (digit_at str i)).testBit (6 - k) = true := by
  rw [mem_vline_cols]
  constructor
  · rintro ⟨y, l, h⟩
    exact ((block_strokes str type mid h1 h2 i k hi1 hi2 hk y l).1 h).1
  · intro hb
    exact ⟨0, stroke_length type str.length i,
      (block_strokes str type mid h1 h2 i k hi1 hi2 hk _ _).2 ⟨hb, rfl, rfl⟩⟩

theorem testBit_mod128 (x j : Nat) (hj : j < 7) : (x % 128).testBit j = x.testBit j := by
  have h128 : (128 : Nat) = 2 ^ 7 := by norm_num
  rw [h128, Nat.testBit_mod_two_pow]
  simp [hj]

theorem not8_L_mod128 (d : Nat) (hd : d < 10) :
    not8 (bar_code_digits.getD d 0) % 128 = R_code d := by
  interval_cases d <;> decide

/-- The byte computed by the code and the pattern of the spec have the same
bits 6..0, for each of the three valid configurations. -/
theorem digit_pattern_bits (N : Nat) (hlen : N = 8 ∨ N = 12 ∨ N = 13) (f i d j : Nat)
    (hi1 : start_idx (classify N).1 ≤ i) (hd : d < 10) (hj : j < 7) :
    (digit_pattern (classify N).1 (classify N).2 f i d).testBit j
      = (spec_pattern (classify N).1 (classify N).2 f i d).testBit j := by
  by_cases hm : (classify N).2 ≤ i
  · have h1 : digit_pattern (classify N).1 (classify N).2 f i d
        = not8 (bar_code_digits.getD d 0) := by
      simp [digit_pattern, hm]
    have h2 : spec_pattern (classify N).1 (classify N).2 f i d = R_code d := by
      simp [spec_pattern, hm]
    rw [h1, h2, ← not8_L_mod128 d hd, testBit_mod128 _ _ hj]
  · rcases classify_cases N hlen with ⟨_, hc⟩ | ⟨_, hc⟩ | ⟨_, hc⟩
    · rw [hc] at hm ⊢
      have hm' : ¬ (i ≥ 4) := hm
      simp [digit_pattern, spec_pattern, hm, hm', L_code]
    · rw [hc] at hm ⊢
      have hm' : ¬ (i ≥ 6) := hm
      simp [digit_pattern, spec_pattern, hm, hm', L_code]
    · rw [hc] at hm hi1 ⊢
      have ha : start_idx barcode_type_e.EAN_13 = 1 := rfl
      simp only [ha] at hi1
      simp only at hm
      rw [digit_pattern_ean13_left f i d hi1 (by omega) hd]
      simp [spec_pattern, hm]

/-- C13: in the rendering of a valid input, the 7 columns of the digit of
index `i` of the bar loop carry strokes exactly at the 1 bits of the R-code of
the digit when `i >= midpoint`, and otherwise of its L-code (the table entry)
for EAN-8 and UPC-A, and of its L- or G-code, as the parity selector says,
for EAN-13; each half holds N/2 digits for EAN-8 and UPC-A and 6 digits for
EAN-13. -/
theorem digit_variant_by_half (str : List Nat)
    (hlen : str.length = 8 ∨ str.length = 12 ∨ str.length = 13)
    (hdig : ∀ c ∈ str, 48 ≤ c ∧ c ≤ 57) (i : Nat)
    (hi1 : start_idx (classify str.length).1 ≤ i) (hi2 : i < str.length) :
    (∀ k : Nat, k < 7 →
      (block_col (classify str.length).1 (classify str.length).2 str.length i + (k : Int)
          ∈ vline_cols (draw_bar_code str).2 ↔
        (spec_pattern (classify str.length).1 (classify str.length).2 (digit_at str 0) i
          (digit_at str i)).testBit (6 - k) = true)) ∧
    ((classify str.length).2 ≤ i →
      spec_pattern (classify str.length).1 (classify str.length).2 (digit_at str 0) i
        (digit_at str i) = R_code (digit_at str i)) ∧
    (i < (classify str.length).2 → str.length ≠ 13 →
      spec_pattern (classify str.length).1 (classify str.length).2 (digit_at str 0) i
        (digit_at str i) = bar_code_digits.getD (digit_at str i) 0) ∧
    (classify str.length).2 - start_idx (classify str.length).1
      = (if str.length = 13 then 6 else str.length / 2) ∧
    str.length - (classify str.length).2
      = (if str.length = 13 then 6 else str.length / 2) := by
  have hb := classify_bounds str.length hlen
  have hd : digit_at str i < 10 := digit_at_lt str hdig i hi2
  refine ⟨?_, ?_, ?_, ?_, ?_⟩
  · intro k hk
    rw [draw_bar_code_valid str hlen hdig, block_cols str _ _ hb.1 hb.2 i k hi1 hi2 hk,
      digit_pattern_bits str.length hlen _ i _ (6 - k) hi1 hd (by omega)]
  · intro hm
    simp [spec_pattern, hm]
  · intro hm h13
    have hm' : ¬ ((classify str.length).2 ≤ i) := by omega
    have ht : (classify str.length).1 ≠ barcode_type_e.EAN_13 := by
      rcases hlen with h | h | h
      · rw [h]; decide
      · rw [h]; decide
      · exact absurd h h13
    simp [spec_pattern, hm', ht, L_code]
  · rcases hlen with h | h | h <;> rw [h] <;> decide
  · rcases hlen with h | h | h <;> rw [h] <;> decide

/-- Witness of C13 at the UPC-A input `"012345678912"` and index 6, the first
digit of the right half. -/
theorem digit_variant_by_half_witness :
    ((bytes "012345678912").length = 8 ∨ (bytes "012345678912").length = 12 ∨
      (bytes "012345678912").length = 13) ∧
    (∀ c ∈ bytes "012345678912", 48 ≤ c ∧ c ≤ 57) ∧
    start_idx (classify (bytes "012345678912").length).1 ≤ 6 ∧
    6 < (bytes "012345678912").length ∧
    (∀ k : Nat, k < 7 →
      (block_col (classify (bytes "012345678912").length).1
            (classify (bytes "012345678912").length).2 (bytes "012345678912").length 6 + (k : Int)
          ∈ vline_cols (draw_bar_code (bytes "012345678912")).2 ↔
        (spec_pattern (classify (bytes "012345678912").length).1
          (classify (bytes "012345678912").length).2 (digit_at (bytes "012345678912") 0) 6
          (digit_at (bytes "012345678912") 6)).testBit (6 - k) = true)) :=
  ⟨by decide, by decide, by decide, by decide,
   (digit_variant_by_half (bytes "012345678912") (by decide) (by decide) 6
     (by decide) (by decide)).1⟩

/-! ## Order of the strokes -/

theorem draw_module_cols_sorted (b : Nat) (length : Int) (ks : List Nat) (pos : Int) :
    (vline_cols (draw_module b length ks pos).1).Pairwise (· < ·) ∧
    ∀ x ∈ vline_cols (draw_module b length ks pos).1, pos ≤ x ∧ x < pos + ks.length := by
  induction ks generalizing pos with
  | nil => simp [draw_module, vline_cols]
  | cons k ks ih =>
    obtain ⟨ih1, ih2⟩ := ih (pos + 1)
    simp only [draw_module, vline_cols_append, List.length_cons]
    by_cases hb : b &&& (0x01 <<< (6 - k)) ≠ 0
    · rw [if_pos hb]
      simp only [vline_cols, List.singleton_append, List.pairwise_cons, List.mem_cons]
      refine ⟨⟨fun x hx => by have := ih2 x hx; omega, ih1⟩, ?_⟩
      rintro x (hx | hx)
      · push_cast; omega
      · have := ih2 x hx
        push_cast; omega
    · rw [if_neg hb]
      simp only [vline_cols, List.nil_append]
      refine ⟨ih1, fun x hx => ?_⟩
      have := ih2 x hx
      push_cast; omega

theorem digit_body_cols_sorted (str : List Nat) (type : barcode_type_e)
    (mid N first_digit i : Nat) (pos : Int) :
    (vline_cols (digit_body str type mid N first_digit i pos).1).Pairwise (· < ·) ∧
    ∀ x ∈ vline_cols (digit_body str type mid N first_digit i pos).1,
      pos ≤ x ∧ x < (digit_body str type mid N first_digit i pos).2 := by
  rw [digit_body_snd]
  have hglyph : ∀ (c : Prop) [Decidable c] (gx gy : Int) (gc : Nat),
      vline_cols (if c then [DrawOp.DrawGlyph gx gy gc] else []) = [] := by
    intro c _ gx gy gc
    split_ifs <;> rfl
  simp only [digit_body, vline_cols_append, hglyph, List.append_nil]
  by_cases hm : i = mid
  · obtain ⟨h1, h2⟩ := draw_module_cols_sorted
      (digit_pattern type mid first_digit i (digit_at str i))
      (if type = barcode_type_e.UPC_A ∧ (i = 0 ∨ i = N - 1) then DISPLAY_HEIGHT
        else DISPLAY_HEIGHT - 8) (List.range 7) (pos + 5)
    simp only [hm, if_true, vline_cols, List.cons_append, List.nil_append, List.pairwise_cons,
      List.mem_cons] at h1 h2 ⊢
    simp only [List.length_range] at h2
    refine ⟨⟨?_, ?_, h1⟩, ?_⟩
    · rintro x (hx | hx)
      · omega
      · have := h2 x hx; omega
    · intro x hx
      have := h2 x hx; omega
    · rintro x (hx | hx | hx)
      · omega
      · omega
      · have := h2 x hx; omega
  · obtain ⟨h1, h2⟩ := draw_module_cols_sorted
      (digit_pattern type mid first_digit i (digit_at str i))
      (if type = barcode_type_e.UPC_A ∧ (i = 0 ∨ i = N - 1) then DISPLAY_HEIGHT
        else DISPLAY_HEIGHT - 8) (List.range 7) pos
    simp only [hm, if_false, vline_cols, List.nil_append] at h1 h2 ⊢
    simp only [List.length_range] at h2
    refine ⟨h1, fun x hx => ?_⟩
    have := h2 x hx
    omega

theorem digits_loop_cols_sorted (str : List Nat) (type : barcode_type_e)
    (mid N first_digit : Nat) (is : List Nat) (pos : Int) :
    (vline_cols (digits_loop str type mid N first_digit is pos).1).Pairwise (· < ·) ∧
    (∀ x ∈ vline_cols (digits_loop str type mid N first_digit is pos).1,
      pos ≤ x ∧ x < (digits_loop str type mid N first_digit is pos).2) ∧
    pos ≤ (digits_loop str type mid N first_digit is pos).2 := by
  induction is generalizing pos with
  | nil => simp [digits_loop, vline_cols]
  | cons i is ih =>
    obtain ⟨b1, b2⟩ := digit_body_cols_sorted str type mid N first_digit i pos
    have hstep : pos ≤ (digit_body str type mid N first_digit i pos).2 := by
      rw [digit_body_snd]; split_ifs <;> omega
    obtain ⟨l1, l2, l3⟩ := ih (digit_body str type mid N first_digit i pos).2
    simp only [digits_loop, vline_cols_append, List.pairwise_append, List.mem_append]
    refine ⟨⟨b1, l1, fun x hx z hz => ?_⟩, ?_, by omega⟩
    · have := b2 x hx
      have := l2 z hz
      omega
    · rintro x (hx | hx)
      · have := b2 x hx; omega
      · have := l2 x hx; omega

theorem sorted_between_guards (s e : Int) (L : List Int) (hL : L.Pairwise (· < ·))
    (hb : ∀ x ∈ L, s + 3 ≤ x ∧ x < e) (hse : s + 3 ≤ e) :
    ([s, s + 2] ++ L ++ [e, e + 2]).Pairwise (· < ·) := by
  have hpair : ∀ a : Int, [a, a + 2].Pairwise (· < ·) := by
    intro a
    refine List.pairwise_cons.2 ⟨fun x hx => ?_, List.pairwise_singleton _ _⟩
    rw [List.mem_singleton] at hx
    omega
  have hmem : ∀ a x : Int, x ∈ [a, a + 2] → x = a ∨ x = a + 2 := by
    intro a x hx
    simpa using hx
  refine List.pairwise_append.2 ⟨List.pairwise_append.2 ⟨hpair s, hL, ?_⟩, hpair e, ?_⟩
  · intro a ha b hb'
    have := hb b hb'
    rcases hmem s a ha with h | h <;> omega
  · intro a ha b hb'
    rcases hmem e b hb' with h | h
    · rcases List.mem_append.1 ha with ha | ha
      · rcases hmem s a ha with h' | h' <;> omega
      · have := hb a ha; omega
    · rcases List.mem_append.1 ha with ha | ha
      · rcases hmem s a ha with h' | h' <;> omega
      · have := hb a ha; omega

/-- The columns of the vertical strokes of a rendering are strictly
increasing in the order in which the strokes are drawn, so no column is
drawn twice. -/
theorem vline_cols_render_sorted (str : List Nat) (type : barcode_type_e) (mid : Nat) :
    (vline_cols (render str type mid)).Pairwise (· < ·) := by
  rw [vline_cols_render]
  obtain ⟨l1, l2, l3⟩ := digits_loop_cols_sorted str type mid str.length (digit_at str 0)
    (List.range' (start_idx type) (str.length - start_idx type)) (start_column str.length + 3)
  exact sorted_between_guards _ _ _ l1 l2 l3

/-! ## The centre guard -/

theorem infix_frame {α : Type} (x A B F C D E : List α) (h : x <:+: F) :
    x <:+: A ++ B ++ F ++ C ++ D ++ E := by
  obtain ⟨p, q, rfl⟩ := h
  exact ⟨A ++ B ++ p, q ++ C ++ D ++ E, by simp only [List.append_assoc]⟩

theorem digit_body_infix (str : List Nat) (type : barcode_type_e) (mid : Nat) (i : Nat)
    (hi1 : start_idx type ≤ i) (hi2 : i < str.length) :
    (digit_body str type mid str.length (digit_at str 0) i
      (entry_col mid (start_idx type) (start_column str.length + 3) i)).1
      <:+: render str type mid := by
  rw [render_eq]
  have hmem : (digit_body str type mid str.length (digit_at str 0) i
      (entry_col mid (start_idx type) (start_column str.length + 3) i)).1 ∈
      List.map (fun i => (digit_body str type mid str.length (digit_at str 0) i
        (entry_col mid (start_idx type) (start_column str.length + 3) i)).1)
        (List.range' (start_idx type) (str.length - start_idx type)) :=
    List.mem_map.2 ⟨i, List.mem_range'_1.2 ⟨hi1, by omega⟩, rfl⟩
  exact infix_frame _ _ _ _ _ _ _ (List.infix_of_mem_flatten hmem)

/-- Between the last column of the left half and the first column of the
digit of index `mid` the only strokes are the two bars of the centre guard. -/
theorem centre_cols (str : List Nat) (type : barcode_type_e) (mid : Nat)
    (h1 : start_idx type ≤ mid) (h2 : mid < str.length) (x : Int)
    (hx : x ∈ vline_cols (render str type mid))
    (hlo : block_col type mid str.length mid - 5 ≤ x)
    (hhi : x < block_col type mid str.length mid) :
    x = block_col type mid str.length mid - 4 ∨ x = block_col type mid str.length mid - 2 := by
  rw [mem_vline_cols] at hx
  obtain ⟨y, l, hx⟩ := hx
  rw [mem_render_vline str type mid _ _ _ h1 h2] at hx
  rcases hx with ⟨_, _, hx⟩ | ⟨_, _, hx⟩ | ⟨i, k, hi1, hi2, hk, _, hx, _, _⟩ | ⟨_, _, hx⟩
  · exfalso
    simp only [block_col] at hlo hhi
    split_ifs at hlo hhi <;> omega
  · exact hx
  · exfalso
    simp only [block_col] at hlo hhi hx
    split_ifs at hlo hhi hx <;> omega
  · exfalso
    simp only [block_col] at hlo hhi
    split_ifs at hlo hhi <;> omega

theorem centre_guard_col_eq (N : Nat) (hlen : N = 8 ∨ N = 12 ∨ N = 13) :
    block_col (classify N).1 (classify N).2 N (classify N).2 = centre_guard_col N + 5 ∧
    (classify N).2 - start_idx (classify N).1 = (if N = 8 then 4 else 6) := by
  rcases hlen with h | h | h <;> subst h <;> decide

/-- C14: in the rendering of a valid input of any of the three types, the
centre guard starts at column `c = start + 3 + 7 * (number of left-half
digits)` (4 digits for EAN-8, 6 for UPC-A and EAN-13) and takes 5 columns:
full-height bars at `c + 1` and `c + 3`, each drawn exactly once, and no stroke
at `c`, `c + 2` and `c + 4`; its two bars are issued immediately before the
glyph and the modules of the digit of index `mid`, which start at `c + 5`. -/
theorem centre_guard_once_before_mid (str : List Nat)
    (hlen : str.length = 8 ∨ str.length = 12 ∨ str.length = 13)
    (hdig : ∀ c ∈ str, 48 ≤ c ∧ c ≤ 57) :
    (classify str.length).2 - start_idx (classify str.length).1
      = (if str.length = 8 then 4 else 6) ∧
    DrawOp.DrawVLine (centre_guard_col str.length + 1) 0 32 ∈ (draw_bar_code str).2 ∧
    DrawOp.DrawVLine (centre_guard_col str.length + 3) 0 32 ∈ (draw_bar_code str).2 ∧
    (vline_cols (draw_bar_code str).2).count (centre_guard_col str.length + 1) = 1 ∧
    (vline_cols (draw_bar_code str).2).count (centre_guard_col str.length + 3) = 1 ∧
    centre_guard_col str.length ∉ vline_cols (draw_bar_code str).2 ∧
    centre_guard_col str.length + 2 ∉ vline_cols (draw_bar_code str).2 ∧
    centre_guard_col str.length + 4 ∉ vline_cols (draw_bar_code str).2 ∧
    block_col (classify str.length).1 (classify str.length).2 str.length (classify str.length).2
      = centre_guard_col str.length + 5 ∧
    ([DrawOp.DrawVLine (centre_guard_col str.length + 1) 0 32,
      DrawOp.DrawVLine (centre_guard_col str.length + 3) 0 32,
      DrawOp.DrawGlyph (centre_guard_col str.length + 6) 31
        (str.getD (classify str.length).2 0)] ++
      (draw_module
        (digit_pattern (classify str.length).1 (classify str.length).2 (digit_at str 0)
          (classify str.length).2 (digit_at str (classify str.length).2))
        24 (List.range 7) (centre_guard_col str.length + 5)).1)
      <:+: (draw_bar_code str).2 := by
  have hb := classify_bounds str.length hlen
  obtain ⟨hc5, hL⟩ := centre_guard_col_eq str.length hlen
  have hsorted := vline_cols_render_sorted str (classify str.length).1 (classify str.length).2
  have hnodup : (vline_cols (render str (classify str.length).1 (classify str.length).2)).Nodup :=
    hsorted.imp (fun h => ne_of_lt h)
  have hbar1 : DrawOp.DrawVLine (centre_guard_col str.length + 1) 0 32
      ∈ render str (classify str.length).1 (classify str.length).2 := by
    rw [mem_render_vline str _ _ _ _ _ hb.1 hb.2, hc5]
    exact Or.inr (Or.inl ⟨rfl, rfl, Or.inl (by ring)⟩)
  have hbar3 : DrawOp.DrawVLine (centre_guard_col str.length + 3) 0 32
      ∈ render str (classify str.length).1 (classify str.length).2 := by
    rw [mem_render_vline str _ _ _ _ _ hb.1 hb.2, hc5]
    exact Or.inr (Or.inl ⟨rfl, rfl, Or.inr (by ring)⟩)
  have hfree : ∀ x : Int, x ∈ vline_cols (render str (classify str.length).1 (classify str.length).2) →
      centre_guard_col str.length ≤ x → x < centre_guard_col str.length + 5 →
      x = centre_guard_col str.length + 1 ∨ x = centre_guard_col str.length + 3 := by
    intro x hx hlo hhi
    have := centre_cols str _ _ hb.1 hb.2 x hx (by rw [hc5]; omega) (by rw [hc5]; omega)
    rw [hc5] at this
    omega
  rw [draw_bar_code_valid str hlen hdig]
  refine ⟨hL, hbar1, hbar3, ?_, ?_, ?_, ?_, ?_, hc5, ?_⟩
  · exact List.count_eq_one_of_mem hnodup ((mem_vline_cols _ _).2 ⟨0, 32, hbar1⟩)
  · exact List.count_eq_one_of_mem hnodup ((mem_vline_cols _ _).2 ⟨0, 32, hbar3⟩)
  · intro hx
    have := hfree _ hx (by omega) (by omega)
    omega
  · intro hx
    have := hfree _ hx (by omega) (by omega)
    omega
  · intro hx
    have := hfree _ hx (by omega) (by omega)
    omega
  · have hinf := digit_body_infix str (classify str.length).1 (classify str.length).2
      (classify str.length).2 hb.1 hb.2
    have hentry : entry_col (classify str.length).2 (start_idx (classify str.length).1)
        (start_column str.length + 3) (classify str.length).2 = centre_guard_col str.length := by
      have := entry_col_eq (classify str.length).1 (classify str.length).2 str.length
        (classify str.length).2 hb.1
      rw [hc5] at this
      simp only [if_true] at this
      omega
    rw [hentry] at hinf
    have hbody : (digit_body str (classify str.length).1 (classify str.length).2 str.length
        (digit_at str 0) (classify str.length).2 (centre_guard_col str.length)).1 =
        [DrawOp.DrawVLine (centre_guard_col str.length + 1) 0 32,
          DrawOp.DrawVLine (centre_guard_col str.length + 3) 0 32,
          DrawOp.DrawGlyph (centre_guard_col str.length + 6) 31
            (str.getD (classify str.length).2 0)] ++
        (draw_module
          (digit_pattern (classify str.length).1 (classify str.length).2 (digit_at str 0)
            (classify str.length).2 (digit_at str (classify str.length).2))
          24 (List.range 7) (centre_guard_col str.length + 5)).1 := by
      have h6 : centre_guard_col str.length + 5 + 1 = centre_guard_col str.length + 6 := by ring
      rcases classify_cases str.length hlen with ⟨hN, hc⟩ | ⟨hN, hc⟩ | ⟨hN, hc⟩
      · have hg : (4 : Nat) ≠ str.length - 1 := by omega
        simp only [hc]
        simp [digit_body, DISPLAY_HEIGHT, h6, hg]
      · have hg : (6 : Nat) ≠ str.length - 1 := by omega
        simp only [hc]
        simp [digit_body, DISPLAY_HEIGHT, h6, hg]
      · have hg : (7 : Nat) ≠ str.length - 1 := by omega
        simp only [hc]
        simp [digit_body, DISPLAY_HEIGHT, h6, hg]
    rw [← hbody]
    exact hinf

/-- Witness of C14 at the EAN-8 input `"01234565"`: the centre guard starts at
column 61, with bars at 62 and 64. -/
theorem centre_guard_once_before_mid_witness :
    ((bytes "01234565").length = 8 ∨ (bytes "01234565").length = 12 ∨
      (bytes "01234565").length = 13) ∧
    (∀ c ∈ bytes "01234565", 48 ≤ c ∧ c ≤ 57) ∧
    centre_guard_col (bytes "01234565").length = 61 ∧
    DrawOp.DrawVLine (centre_guard_col (bytes "01234565").length + 1) 0 32
      ∈ (draw_bar_code (bytes "01234565")).2 ∧
    (vline_cols (draw_bar_code (bytes "01234565")).2).count
      (centre_guard_col (bytes "01234565").length + 1) = 1 :=
  ⟨by decide, by decide, by decide,
   (centre_guard_once_before_mid (bytes "01234565") (by decide) (by decide)).2.1,
   (centre_guard_once_before_mid (bytes "01234565") (by decide) (by decide)).2.2.2.1⟩

/-! ## Strokes and glyphs of a digit -/

theorem stroke_length_eq (N i : Nat) (hlen : N = 8 ∨ N = 12 ∨ N = 13) :
    stroke_length (classify N).1 N i = (if N = 12 ∧ (i = 0 ∨ i = 11) then 32 else 24) := by
  rcases hlen with h | h | h <;> subst h <;>
    simp [stroke_length, classify, DISPLAY_HEIGHT]

/-- C15: the stroke loop, run on any byte `b` with the cursor at column `c`,
draws a stroke from y = 0 at column `c + k` exactly when bit `6 - k` of `b` is
1 (k in 0..6) and advances the cursor by 7 whatever `b` is; in the rendering of
a valid input the strokes in the 7 columns of the digit of index `i` are those
of its byte, of height 24, or 32 for the digits of index 0 and 11 of a UPC-A
symbol. -/
theorem modules_drawn_msb_first (str : List Nat)
    (hlen : str.length = 8 ∨ str.length = 12 ∨ str.length = 13)
    (hdig : ∀ c ∈ str, 48 ≤ c ∧ c ≤ 57) (i : Nat)
    (hi1 : start_idx (classify str.length).1 ≤ i) (hi2 : i < str.length)
    (b : Nat) (length c : Int) :
    (draw_module b length (List.range 7) c).2 = c + 7 ∧
    (∀ op : DrawOp, op ∈ (draw_module b length (List.range 7) c).1 ↔
      ∃ k : Nat, k < 7 ∧ b.testBit (6 - k) = true ∧
        op = DrawOp.DrawVLine (c + (k : Int)) 0 length) ∧
    (∀ k : Nat, k < 7 → ∀ y l : Int,
      (DrawOp.DrawVLine
          (block_col (classify str.length).1 (classify str.length).2 str.length i + (k : Int)) y l
          ∈ (draw_bar_code str).2 ↔
        ((digit_pattern (classify str.length).1 (classify str.length).2 (digit_at str 0) i
            (digit_at str i)).testBit (6 - k) = true ∧
          y = 0 ∧ l = (if str.length = 12 ∧ (i = 0 ∨ i = 11) then 32 else 24)))) := by
  have hb := classify_bounds str.length hlen
  refine ⟨?_, fun op => mem_draw_module b length c op, ?_⟩
  · rw [draw_module_snd, List.length_range]
    rfl
  · intro k hk y l
    rw [draw_bar_code_valid str hlen hdig,
      block_strokes str _ _ hb.1 hb.2 i k hi1 hi2 hk y l, stroke_length_eq str.length i hlen]

/-- Witness of C15 at the UPC-A input `"012345678912"` and its first digit,
drawn at full height. -/
theorem modules_drawn_msb_first_witness :
    ((bytes "012345678912").length = 8 ∨ (bytes "012345678912").length = 12 ∨
      (bytes "012345678912").length = 13) ∧
    (∀ c ∈ bytes "012345678912", 48 ≤ c ∧ c ≤ 57) ∧
    start_idx (classify (bytes "012345678912").length).1 ≤ 0 ∧
    0 < (bytes "012345678912").length ∧
    (draw_module 0b0001101 32 (List.range 7) 19).2 = 19 + 7 ∧
    (∀ k : Nat, k < 7 → ∀ y l : Int,
      (DrawOp.DrawVLine
          (block_col (classify (bytes "012345678912").length).1
            (classify (bytes "012345678912").length).2 (bytes "012345678912").length 0
            + (k : Int)) y l
          ∈ (draw_bar_code (bytes "012345678912")).2 ↔
        ((digit_pattern (classify (bytes "012345678912").length).1
            (classify (bytes "012345678912").length).2 (digit_at (bytes "012345678912") 0) 0
            (digit_at (bytes "012345678912") 0)).testBit (6 - k) = true ∧
          y = 0 ∧
          l = (if (bytes "012345678912").length = 12 ∧ ((0 : Nat) = 0 ∨ (0 : Nat) = 11)
                then 32 else 24)))) :=
  ⟨by decide, by decide, by decide, by decide,
   (modules_drawn_msb_first (bytes "012345678912") (by decide) (by decide) 0
     (by decide) (by decide) 0b0001101 32 19).1,
   (modules_drawn_msb_first (bytes "012345678912") (by decide) (by decide) 0
     (by decide) (by decide) 0b0001101 32 19).2.2⟩

theorem bar_count_parity (d : Nat) (hd : d < 10) :
    bar_count (L_code d) % 2 = 1 ∧ bar_count (G_code d) % 2 = 0 := by
  interval_cases d <;> decide

set_option maxRecDepth 100000 in
theorem sample_ean13_first_digit_1_cols :
    vline_cols (draw_bar_code (bytes "1123456789012")).2 =
      [13, 15, 18, 19, 22, 25, 28, 29, 31, 36, 38, 42, 43, 45, 46, 47, 50, 55, 57, 59, 61, 63,
       67, 70, 73, 77, 78, 79, 81, 84, 85, 86, 89, 91, 92, 95, 96, 98, 99, 101, 102, 105, 107] := by
  decide

theorem strokes_in_block_eq_bar_count (str : List Nat) (type : barcode_type_e) (mid : Nat)
    (h1 : start_idx type ≤ mid) (h2 : mid < str.length) (i : Nat)
    (hi1 : start_idx type ≤ i) (hi2 : i < str.length) :
    strokes_in_block (render str type mid) (block_col type mid str.length i)
      = bar_count (digit_pattern type mid (digit_at str 0) i (digit_at str i)) := by
  have hn1 : ((vline_cols (render str type mid)).filter
      (fun x => decide (block_col type mid str.length i ≤ x ∧
        x < block_col type mid str.length i + 7))).Nodup :=
    List.Nodup.filter _ ((vline_cols_render_sorted str type mid).imp (fun h => ne_of_lt h))
  have hinj : Function.Injective
      (fun (k : Nat) => block_col type mid str.length i + (k : Int)) := by
    intro a b hab
    simp only at hab
    omega
  have hn2 : (((List.range 7).filter
      (fun k => (digit_pattern type mid (digit_at str 0) i (digit_at str i)).testBit (6 - k))).map
      (fun (k : Nat) => block_col type mid str.length i + (k : Int))).Nodup :=
    List.Nodup.map hinj (List.Nodup.filter _ (List.nodup_range 7))
  have hperm := (List.perm_ext_iff_of_nodup hn1 hn2).2 (by
    intro x
    simp only [List.mem_filter, List.mem_map, List.mem_range, decide_eq_true_eq]
    constructor
    · rintro ⟨hx, hlo, hhi⟩
      have hk : (x - block_col type mid str.length i).toNat < 7 := by omega
      have hxk : x = block_col type mid str.length i
          + (((x - block_col type mid str.length i).toNat : Nat) : Int) := by omega
      rw [hxk] at hx
      exact ⟨_, ⟨hk, (block_cols str type mid h1 h2 i _ hi1 hi2 hk).1 hx⟩, hxk.symm⟩
    · rintro ⟨k, ⟨hk, hb⟩, rfl⟩
      exact ⟨(block_cols str type mid h1 h2 i k hi1 hi2 hk).2 hb, by omega, by omega⟩)
  rw [strokes_in_block, bar_count, hperm.length_eq, List.length_map]

/-- C17, as the spec states it, fails on the code: in the rendering of
`"1123456789012"` (first digit 1, selector `0b001011`) the selector bit of the
left position 3 is 1 and the 7 columns of that position (30..36) carry 2
strokes, an even number and not an odd one; the selector bit of position 1 is
0 and its 7 columns (16..22) carry 3 strokes, an odd number and not an even
one. -/
theorem selector_bit_one_draws_even_bar_count :
    ((bytes "1123456789012").length = 13 ∧ (∀ c ∈ bytes "1123456789012", 48 ≤ c ∧ c ≤ 57)) ∧
    ((ean_13_left_parity.getD (digit_at (bytes "1123456789012") 0) 0).testBit (5 - (3 - 1)) = true ∧
      strokes_in_block (draw_bar_code (bytes "1123456789012")).2 (start_column 13 + 3 + 7 * 2) = 2 ∧
      strokes_in_block (draw_bar_code (bytes "1123456789012")).2 (start_column 13 + 3 + 7 * 2) % 2
        ≠ 1) ∧
    ((ean_13_left_parity.getD (digit_at (bytes "1123456789012") 0) 0).testBit (5 - (1 - 1)) = false ∧
      strokes_in_block (draw_bar_code (bytes "1123456789012")).2 (start_column 13 + 3 + 7 * 0) = 3 ∧
      strokes_in_block (draw_bar_code (bytes "1123456789012")).2 (start_column 13 + 3 + 7 * 0) % 2
        ≠ 0) := by
  have h3 : strokes_in_block (draw_bar_code (bytes "1123456789012")).2
      (start_column 13 + 3 + 7 * 2) = 2 := by
    rw [strokes_in_block, sample_ean13_first_digit_1_cols]
    decide
  have h1 : strokes_in_block (draw_bar_code (bytes "1123456789012")).2
      (start_column 13 + 3 + 7 * 0) = 3 := by
    rw [strokes_in_block, sample_ean13_first_digit_1_cols]
    decide
  refine ⟨⟨by decide, by decide⟩, ⟨by decide, h3, ?_⟩, ⟨by decide, h1, ?_⟩⟩
  · rw [h3]; decide
  · rw [h1]; decide

/-- C17 amended: in the rendering of a valid 13-digit string, the 7 columns of
the left position `p` in 1..6 carry as many strokes as the byte computed for
that position has bar modules, and that number is even when the selector bit
`5 - (p - 1)` of `ean_13_left_parity[first digit]` is 1 (the G-code is drawn)
and odd when the bit is 0 (the L-code is drawn); the same holds for the byte
of every first digit `f` and digit `d`. -/
theorem selector_bit_parity_of_bar_count (str : List Nat) (hlen : str.length = 13)
    (hdig : ∀ c ∈ str, 48 ≤ c ∧ c ≤ 57) (p : Nat) (hp1 : 1 ≤ p) (hp6 : p ≤ 6) :
    strokes_in_block (draw_bar_code str).2 (start_column 13 + 3 + 7 * ((p : Int) - 1))
      = bar_count (digit_pattern barcode_type_e.EAN_13 7 (digit_at str 0) p (digit_at str p)) ∧
    strokes_in_block (draw_bar_code str).2 (start_column 13 + 3 + 7 * ((p : Int) - 1)) % 2
      = (if (ean_13_left_parity.getD (digit_at str 0) 0).testBit (5 - (p - 1)) = true
          then 0 else 1) ∧
    (∀ f d : Nat, d < 10 →
      bar_count (digit_pattern barcode_type_e.EAN_13 7 f p d) % 2 =
        (if (ean_13_left_parity.getD f 0).testBit (5 - (p - 1)) = true then 0 else 1) ∧
      (((ean_13_left_parity.getD f 0).testBit (5 - (p - 1)) = true →
          digit_pattern barcode_type_e.EAN_13 7 f p d = G_code d) ∧
       ((ean_13_left_parity.getD f 0).testBit (5 - (p - 1)) = false →
          digit_pattern barcode_type_e.EAN_13 7 f p d = L_code d))) := by
  have hpar : ∀ f d : Nat, d < 10 →
      bar_count (digit_pattern barcode_type_e.EAN_13 7 f p d) % 2 =
        (if (ean_13_left_parity.getD f 0).testBit (5 - (p - 1)) = true then 0 else 1) := by
    intro f d hd
    rw [digit_pattern_ean13_left f p d hp1 hp6 hd]
    have := bar_count_parity d hd
    split_ifs
    · exact this.2
    · exact this.1
  have hcount : strokes_in_block (draw_bar_code str).2
      (start_column 13 + 3 + 7 * ((p : Int) - 1))
      = bar_count (digit_pattern barcode_type_e.EAN_13 7 (digit_at str 0) p (digit_at str p)) := by
    rw [draw_bar_code_valid str (by omega) hdig, hlen]
    have hc : classify 13 = (barcode_type_e.EAN_13, 7) := rfl
    simp only [hc]
    have hcol : start_column 13 + 3 + 7 * ((p : Int) - 1)
        = block_col barcode_type_e.EAN_13 7 str.length p := by
      have ha : start_idx barcode_type_e.EAN_13 = 1 := rfl
      have hm : ¬ (7 ≤ p) := by omega
      simp only [block_col, hlen, ha, hm, if_false]
      push_cast
      ring
    rw [hcol]
    exact strokes_in_block_eq_bar_count str barcode_type_e.EAN_13 7 (by decide) (by omega) p
      hp1 (by omega)
  refine ⟨hcount, ?_, ?_⟩
  · rw [hcount]
    exact hpar _ _ (digit_at_lt str hdig p (by omega))
  · intro f d hd
    refine ⟨hpar f d hd, ?_, ?_⟩
    · intro hb
      rw [digit_pattern_ean13_left f p d hp1 hp6 hd, if_pos hb]
    · intro hb
      rw [digit_pattern_ean13_left f p d hp1 hp6 hd, if_neg (by rw [hb]; decide)]

/-- Witness of C17 (amended) at `"1123456789012"` and position 3, drawn with
the G-code: 2 strokes. -/
theorem selector_bit_parity_of_bar_count_witness :
    (bytes "1123456789012").length = 13 ∧
    (∀ c ∈ bytes "1123456789012", 48 ≤ c ∧ c ≤ 57) ∧ 1 ≤ 3 ∧ 3 ≤ 6 ∧
    strokes_in_block (draw_bar_code (bytes "1123456789012")).2
        (start_column 13 + 3 + 7 * (((3 : Nat) : Int) - 1))
      = bar_count (digit_pattern barcode_type_e.EAN_13 7 (digit_at (bytes "1123456789012") 0) 3
          (digit_at (bytes "1123456789012") 3)) ∧
    strokes_in_block (draw_bar_code (bytes "1123456789012")).2
        (start_column 13 + 3 + 7 * (((3 : Nat) : Int) - 1)) % 2
      = (if (ean_13_left_parity.getD (digit_at (bytes "1123456789012") 0) 0).testBit
            (5 - (3 - 1)) = true
          then 0 else 1) :=
  ⟨by decide, by decide, by decide, by decide,
   (selector_bit_parity_of_bar_count (bytes "1123456789012") (by decide) (by decide) 3
     (by decide) (by decide)).1,
   (selector_bit_parity_of_bar_count (bytes "1123456789012") (by decide) (by decide) 3
     (by decide) (by decide)).2.1⟩

/-! ## Coordinates -/

/-- C18: every coordinate of the rendering of a valid input lies on the
128x32 display: each vertical stroke starts at y = 0, has a height of at most
32 and a column x with 0 <= x < 128, and each glyph has its origin at a column
0 <= x < 128 on the baseline y = 31; all the strokes lie in the columns
`[start, start + 7 * D + 11)`, `D` being the number of digits drawn as bars
(8, 12 and 12 for the lengths 8, 12 and 13). -/
theorem coordinates_on_display (str : List Nat)
    (hlen : str.length = 8 ∨ str.length = 12 ∨ str.length = 13)
    (hdig : ∀ c ∈ str, 48 ≤ c ∧ c ≤ 57) :
    (∀ x y l : Int, DrawOp.DrawVLine x y l ∈ (draw_bar_code str).2 →
      0 ≤ x ∧ x < 128 ∧ y = 0 ∧ 0 < l ∧ l ≤ 32 ∧
      start_column str.length ≤ x ∧
      x < start_column str.length
            + 7 * ((if str.length = 13 then 12 else str.length : Nat) : Int) + 11) ∧
    (∀ (x y : Int) (c : Nat), DrawOp.DrawGlyph x y c ∈ (draw_bar_code str).2 →
      0 ≤ x ∧ x < 128 ∧ y = 31) := by
  have hb := classify_bounds str.length hlen
  have hsv := start_column_values
  rw [draw_bar_code_valid str hlen hdig]
  constructor
  · intro x y l hmem
    rw [mem_render_vline str _ _ _ _ _ hb.1 hb.2] at hmem
    have hsl : ∀ i, stroke_length (classify str.length).1 str.length i = 24 ∨
        stroke_length (classify str.length).1 str.length i = 32 := by
      intro i
      rw [stroke_length_eq str.length i hlen]
      split_ifs
      · exact Or.inr rfl
      · exact Or.inl rfl
    rcases classify_cases str.length hlen with ⟨hN, hc⟩ | ⟨hN, hc⟩ | ⟨hN, hc⟩
    · have ha : start_idx barcode_type_e.EAN_8 = 0 := rfl
      have hc' : classify 8 = (barcode_type_e.EAN_8, 4) := rfl
      simp only [hN, hc', ha, block_col, DISPLAY_HEIGHT, hsv.1] at hmem hsl ⊢
      rcases hmem with ⟨hy, hl, hx⟩ | ⟨hy, hl, hx⟩ | ⟨i, k, hi1, hi2, hk, _, hx, hy, hl⟩ |
        ⟨hy, hl, hx⟩
      · norm_num at hx ⊢; omega
      · norm_num at hx ⊢; omega
      · have := hsl i
        split_ifs at hx <;> norm_num at hx ⊢ <;> omega
      · norm_num at hx ⊢; omega
    · have ha : start_idx barcode_type_e.UPC_A = 0 := rfl
      have hc' : classify 12 = (barcode_type_e.UPC_A, 6) := rfl
      simp only [hN, hc', ha, block_col, DISPLAY_HEIGHT, hsv.2.1] at hmem hsl ⊢
      rcases hmem with ⟨hy, hl, hx⟩ | ⟨hy, hl, hx⟩ | ⟨i, k, hi1, hi2, hk, _, hx, hy, hl⟩ |
        ⟨hy, hl, hx⟩
      · norm_num at hx ⊢; omega
      · norm_num at hx ⊢; omega
      · have := hsl i
        split_ifs at hx <;> norm_num at hx ⊢ <;> omega
      · norm_num at hx ⊢; omega
    · have ha : start_idx barcode_type_e.EAN_13 = 1 := rfl
      have hc' : classify 13 = (barcode_type_e.EAN_13, 7) := rfl
      simp only [hN, hc', ha, block_col, DISPLAY_HEIGHT, hsv.2.2] at hmem hsl ⊢
      rcases hmem with ⟨hy, hl, hx⟩ | ⟨hy, hl, hx⟩ | ⟨i, k, hi1, hi2, hk, _, hx, hy, hl⟩ |
        ⟨hy, hl, hx⟩
      · norm_num at hx ⊢; omega
      · norm_num at hx ⊢; omega
      · have := hsl i
        split_ifs at hx <;> norm_num at hx ⊢ <;> omega
      · norm_num at hx ⊢; omega
  · intro x y c hmem
    rw [mem_render_glyph str _ _ _ _ _ hb.1 hb.2] at hmem
    rcases classify_cases str.length hlen with ⟨hN, hc⟩ | ⟨hN, hc⟩ | ⟨hN, hc⟩
    · have ha : start_idx barcode_type_e.EAN_8 = 0 := rfl
      have hc' : classify 8 = (barcode_type_e.EAN_8, 4) := rfl
      simp only [hN, hc', ha, block_col, DISPLAY_HEIGHT, hsv.1] at hmem ⊢
      rcases hmem with ⟨hne, _⟩ | ⟨i, hi1, hi2, _, hx, hy, _⟩ | ⟨hu, _⟩
      · exact absurd rfl hne
      · split_ifs at hx <;> norm_num at hx hy ⊢ <;> omega
      · exact absurd hu (by decide)
    · have ha : start_idx barcode_type_e.UPC_A = 0 := rfl
      have hc' : classify 12 = (barcode_type_e.UPC_A, 6) := rfl
      simp only [hN, hc', ha, block_col, DISPLAY_HEIGHT, hsv.2.1] at hmem ⊢
      rcases hmem with ⟨_, hx, hy, _⟩ | ⟨i, hi1, hi2, _, hx, hy, _⟩ | ⟨_, hx, hy, _⟩
      · norm_num at hx hy ⊢; omega
      · split_ifs at hx <;> norm_num at hx hy ⊢ <;> omega
      · norm_num at hx hy ⊢; omega
    · have ha : start_idx barcode_type_e.EAN_13 = 1 := rfl
      have hc' : classify 13 = (barcode_type_e.EAN_13, 7) := rfl
      simp only [hN, hc', ha, block_col, DISPLAY_HEIGHT, hsv.2.2] at hmem ⊢
      rcases hmem with ⟨_, hx, hy, _⟩ | ⟨i, hi1, hi2, _, hx, hy, _⟩ | ⟨hu, _⟩
      · norm_num at hx hy ⊢; omega
      · split_ifs at hx <;> norm_num at hx hy ⊢ <;> omega
      · exact absurd hu (by decide)

/-- Witness of C18 at the EAN-13 input `"0123456789012"`. -/
theorem coordinates_on_display_witness :
    ((bytes "0123456789012").length = 8 ∨ (bytes "0123456789012").length = 12 ∨
      (bytes "0123456789012").length = 13) ∧
    (∀ c ∈ bytes "0123456789012", 48 ≤ c ∧ c ≤ 57) ∧
    (∀ (x y : Int) (c : Nat),
      DrawOp.DrawGlyph x y c ∈ (draw_bar_code (bytes "0123456789012")).2 →
      0 ≤ x ∧ x < 128 ∧ y = 31) :=
  ⟨by decide, by decide,
   (coordinates_on_display (bytes "0123456789012") (by decide) (by decide)).2⟩

/-! ## The thirty patterns -/

set_option maxRecDepth 100000 in
theorem thirty_patterns_nodup :
    ((List.range 10).flatMap (fun d =>
      [bar_code_digits.getD d 0, bar_code_digits.getD d 0 ^^^ 0x7F,
       swap7bits (bar_code_digits.getD d 0 ^^^ 0x7F)])).Nodup := by
  decide

set_option maxRecDepth 100000 in
theorem pattern_edges : ∀ d < 10,
    (bar_code_digits.getD d 0).testBit 6 = false ∧ (bar_code_digits.getD d 0).testBit 0 = true ∧
    (swap7bits (bar_code_digits.getD d 0 ^^^ 0x7F)).testBit 6 = false ∧
    (swap7bits (bar_code_digits.getD d 0 ^^^ 0x7F)).testBit 0 = true ∧
    (bar_code_digits.getD d 0 ^^^ 0x7F).testBit 6 = true ∧
    (bar_code_digits.getD d 0 ^^^ 0x7F).testBit 0 = false ∧
    not8 (bar_code_digits.getD d 0) % 128 = bar_code_digits.getD d 0 ^^^ 0x7F ∧
    swap7bits (not8 (bar_code_digits.getD d 0)) = swap7bits (bar_code_digits.getD d 0 ^^^ 0x7F) := by
  decide

set_option maxRecDepth 100000 in
theorem variant_pattern_injective_fin : ∀ (d1 : Fin 10) (v1 : Fin 3) (d2 : Fin 10) (v2 : Fin 3),
    variant_pattern d1 v1 = variant_pattern d2 v2 → d1 = d2 ∧ v1 = v2 := by
  decide

theorem variant_pattern_injective : ∀ d1 < 10, ∀ v1 < 3, ∀ d2 < 10, ∀ v2 < 3,
    variant_pattern d1 v1 = variant_pattern d2 v2 → d1 = d2 ∧ v1 = v2 := by
  intro d1 h1 v1 hv1 d2 h2 v2 hv2 h
  have := variant_pattern_injective_fin ⟨d1, h1⟩ ⟨v1, hv1⟩ ⟨d2, h2⟩ ⟨v2, hv2⟩ h
  exact ⟨congrArg Fin.val this.1, congrArg Fin.val this.2⟩

/-- C19: the 30 seven-bit patterns of the 10 digits in the three variants
(L = `bar_code_digits[d]`, R = L XOR 0x7F, G = `swap7bits` of R) are pairwise
distinct, so the map from (digit, variant) to the pattern is injective;
every L and G pattern has bit 6 = 0 (starts with a space) and
bit 0 = 1 (ends with a bar), every R pattern has bit 6 = 1 and bit 0 = 0;
these R and G are the bits 6..0 of the bytes that the code computes. -/
theorem thirty_patterns_distinct :
    ((List.range 10).flatMap (fun d =>
      [bar_code_digits.getD d 0, bar_code_digits.getD d 0 ^^^ 0x7F,
       swap7bits (bar_code_digits.getD d 0 ^^^ 0x7F)])).Nodup ∧
    ((List.range 10).flatMap (fun d =>
      [bar_code_digits.getD d 0, bar_code_digits.getD d 0 ^^^ 0x7F,
       swap7bits (bar_code_digits.getD d 0 ^^^ 0x7F)])).length = 30 ∧
    (∀ d1 < 10, ∀ v1 < 3, ∀ d2 < 10, ∀ v2 < 3,
      variant_pattern d1 v1 = variant_pattern d2 v2 → d1 = d2 ∧ v1 = v2) ∧
    (∀ d < 10,
      (bar_code_digits.getD d 0).testBit 6 = false ∧ (bar_code_digits.getD d 0).testBit 0 = true ∧
      (swap7bits (bar_code_digits.getD d 0 ^^^ 0x7F)).testBit 6 = false ∧
      (swap7bits (bar_code_digits.getD d 0 ^^^ 0x7F)).testBit 0 = true ∧
      (bar_code_digits.getD d 0 ^^^ 0x7F).testBit 6 = true ∧
      (bar_code_digits.getD d 0 ^^^ 0x7F).testBit 0 = false ∧
      not8 (bar_code_digits.getD d 0) % 128 = bar_code_digits.getD d 0 ^^^ 0x7F ∧
      swap7bits (not8 (bar_code_digits.getD d 0))
        = swap7bits (bar_code_digits.getD d 0 ^^^ 0x7F)) :=
  ⟨thirty_patterns_nodup, by decide, variant_pattern_injective, pattern_edges⟩

/-! ## UPC-A and EAN-13 with a leading zero -/

end OledBarcode
